import Mathlib

/-!
Verification development for the nhdnet hydrographic network analysis engine.

The Python source operates on pandas/geopandas data frames of flowlines,
joins and barriers.  We embed the pipeline shallowly:

* tables become lists of structures, pandas joins/filters/groupbys become
  the corresponding list operations (stable sorts model `sort_values`,
  association-list lookups model index joins, `Option` models NaN);
* planar geometry is specialised to one dimension: a `Point` is a rational
  coordinate and a `LineString` is the list of its vertex coordinates, so
  shapely's `length`, `project`, `interpolate` and `distance` are exact
  rational functions (the pipeline logic in `cut.py`, `lines.py`,
  `network.py`, `network_analysis.py` and `stats.py` is dimension-agnostic:
  it consumes geometry only through these operations);
* the unbounded `while` loop of `generate_network` becomes a fuel-indexed
  loop returning `none` when the fuel is exhausted before the frontier
  empties;
* Python runtime errors (the `ValueError` raised by unpacking the result of
  `cut_line_at_point`, falling off the end of its scan loop) are modelled by
  `Option`.
-/

namespace NhdNet

/-! ### 1-D geometry: `nhdnet/geometry/lines.py` primitives -/

/-- A point in the 1-D specialisation of the planar model. -/
abbrev Pt := ℚ

/-- A LineString: the list of vertex coordinates. -/
abbrev Line := List ℚ

/-- Arc length of a polyline (shapely `line.length`). -/
def lineLength : Line → ℚ
  | a :: b :: rest => |b - a| + lineLength (b :: rest)
  | _ => 0

/-- Clamp `p` into the closed interval `[lo, hi]`. -/
def clampQ (p lo hi : ℚ) : ℚ := max lo (min hi p)

/-- For each segment of the polyline, the pair
(distance from `p` to the nearest point of that segment,
arc-length position of that nearest point), accumulating arc length. -/
def projCandidates : Line → ℚ → ℚ → List (ℚ × ℚ)
  | a :: b :: rest, p, acc =>
      let c := clampQ p (min a b) (max a b)
      (|p - c|, acc + |c - a|) :: projCandidates (b :: rest) p (acc + |b - a|)
  | _, _, _ => []

/-- Among `(dist, pos)` candidates, the first one with minimal `dist`. -/
def firstMinFst : List (ℚ × ℚ) → Option (ℚ × ℚ)
  | [] => none
  | x :: xs =>
      match firstMinFst xs with
      | none => some x
      | some m => if m.1 < x.1 then some m else some x

/-- shapely `line.project(point)`: arc-length position on the line of the
point of the line nearest to `p`. -/
def project (line : Line) (p : ℚ) : ℚ :=
  ((firstMinFst (projCandidates line p 0)).map Prod.snd).getD 0

/-- shapely `point.distance(line)`: distance from `p` to the line. -/
def distToLine (line : Line) (p : ℚ) : ℚ :=
  ((firstMinFst (projCandidates line p 0)).map Prod.fst).getD 0

/-- shapely `line.interpolate(d)`: the point at arc-length `d` on the line. -/
def interpolate : Line → ℚ → ℚ
  | [], _ => 0
  | [a], _ => a
  | a :: b :: rest, d =>
      if d ≤ |b - a| then (if a ≤ b then a + d else a - d)
      else interpolate (b :: rest) (d - |b - a|)

/-- `calculate_sinuosity` (lines.py): length over straight-line distance
between the endpoints, clamped to at least 1; 1 when that distance is 0. -/
def calculate_sinuosity (line : Line) : ℚ :=
  let straight := |line.getLastD 0 - line.headD 0|
  if 0 < straight then max (lineLength line / straight) 1 else 1

/-- Scan loop of `cut_line_at_point` (lines.py): walk the coordinates,
splitting at the first vertex projecting at or beyond `distance`.
Falling off the end (Python returns `None`) is `none`. -/
def cutScan (line : Line) (distance : ℚ) : List ℚ → List ℚ → Option (List Line)
  | _, [] => none
  | pre, p :: rest =>
      let pd := project line p
      if pd = distance then some [pre ++ [p], p :: rest]
      else if distance < pd then
        let cp := interpolate line distance
        some [pre ++ [cp], cp :: p :: rest]
      else cutScan line distance (pre ++ [p]) rest

/-- `cut_line_at_point` (lines.py): returns the one-element list when the
point projects to an endpoint, otherwise the two pieces. -/
def cut_line_at_point (line : Line) (point : Pt) : Option (List Line) :=
  let distance := project line point
  if distance ≤ 0 ∨ lineLength line ≤ distance then some [line]
  else cutScan line distance [] line

/-- Loop body of `cut_line_at_points` (lines.py).  The Python statement
`segment, remainder = cut_line_at_point(remainder, point)` raises unless the
result is a two-element list; that failure is `none`. -/
def cutPoints (segments : List Line) (remainder : Line) : List Pt → Option (List Line)
  | [] => some (segments ++ [remainder])
  | p :: ps =>
      match cut_line_at_point remainder p with
      | some [seg, rem] => cutPoints (segments ++ [seg]) rem ps
      | _ => none

/-- `cut_line_at_points` (lines.py). -/
def cut_line_at_points (line : Line) (points : List Pt) : Option (List Line) :=
  cutPoints [] line points

/-! ### Stable sorting: model of pandas `sort_values` -/

/-- Insert `x` after every element strictly less than it (stable insertion). -/
def insertBy (lt : α → α → Bool) (x : α) : List α → List α
  | [] => [x]
  | y :: ys => if lt y x then y :: insertBy lt x ys else x :: y :: ys

/-- Stable insertion sort; models `DataFrame.sort_values`. -/
def sortBy (lt : α → α → Bool) : List α → List α
  | [] => []
  | x :: xs => insertBy lt x (sortBy lt xs)

theorem insertBy_perm (lt : α → α → Bool) (x : α) :
    ∀ l : List α, (insertBy lt x l).Perm (x :: l)
  | [] => List.Perm.refl _
  | y :: ys => by
      simp only [insertBy]
      by_cases h : lt y x = true
      · simp only [h, if_true]
        exact ((insertBy_perm lt x ys).cons y).trans (List.Perm.swap x y ys)
      · simp [h]

theorem sortBy_perm (lt : α → α → Bool) : ∀ l : List α, (sortBy lt l).Perm l
  | [] => List.Perm.refl _
  | x :: xs => (insertBy_perm lt x (sortBy lt xs)).trans ((sortBy_perm lt xs).cons x)

theorem mem_sortBy (lt : α → α → Bool) (l : List α) (x : α) :
    x ∈ sortBy lt l ↔ x ∈ l := (sortBy_perm lt l).mem_iff

/-! ### Data model: flowlines, joins, barriers -/

/-- A flowline row (`flowline.feather` schema consumed by `cut.py`). -/
structure Flowline where
  lineID : Nat
  NHDPlusID : Nat
  sizeclass : String
  streamorder : Nat
  length : ℚ
  sinuosity : ℚ
  geometry : Line
deriving DecidableEq, Repr

/-- A join row.  `jtype` is `none` when the `type` cell is NaN. -/
structure Join where
  upstream_id : Nat
  downstream_id : Nat
  upstream : Nat
  downstream : Nat
  jtype : Option String
deriving DecidableEq, Repr

/-- A snapped barrier row as consumed by `cut_flowlines`. -/
structure Barrier where
  barrierID : Nat
  lineID : Nat
  geometry : Pt
deriving DecidableEq, Repr

/-- A barrier-join row; `none` models NaN from a failed left join. -/
structure BJRow where
  barrierID : Nat
  upstream_id : Option Nat
  downstream_id : Option Nat
deriving DecidableEq, Repr

/-! ### The cutter: `cut_flowlines` (`nhdnet/nhd/cut.py`) -/

/-- `EPS` (cut.py): barriers within 1 m of an end are endpoint barriers. -/
def EPS : ℚ := 1

/-- A row of the `barrier_segments` frame (cut.py line 84): inner join of
flowlines and barriers on `lineID`, with the projected `linepos`. -/
structure BarrierSeg where
  lineID : Nat
  NHDPlusID : Nat
  geometry : Line
  geometry_barrier : Pt
  barrierID : Nat
  linepos : ℚ
deriving DecidableEq, Repr

/-- One `barrier_segments` row for a (flowline, barrier) pair. -/
def mkSeg (f : Flowline) (b : Barrier) : BarrierSeg :=
  { lineID := f.lineID, NHDPlusID := f.NHDPlusID, geometry := f.geometry,
    geometry_barrier := b.geometry, barrierID := b.barrierID,
    linepos := project f.geometry b.geometry }

/-- `barrier_segments` (cut.py lines 84-95): one row per (flowline, barrier)
pair sharing a `lineID`, left-frame-major as pandas `join` produces. -/
def mkBarrierSegments (flowlines : List Flowline) (barriers : List Barrier) :
    List BarrierSeg :=
  flowlines.flatMap fun f =>
    (barriers.filter fun b => b.lineID = f.lineID).map (mkSeg f)

/-- `on_upstream` (cut.py line 98). -/
def onUpstream (r : BarrierSeg) : Bool := r.linepos ≤ EPS

/-- `on_downstream` (cut.py line 99). -/
def onDownstream (r : BarrierSeg) : Bool := lineLength r.geometry - EPS ≤ r.linepos

/-- Rows emitted for one upstream-endpoint barrier: one row per upstream
neighbour of its line, or one NaN row if the line has no row in `joins`. -/
def upstreamEmit (joins : List Join) (r : BarrierSeg) : List BJRow :=
  match joins.filter fun j => j.downstream_id = r.lineID with
  | [] => [{ barrierID := r.barrierID, upstream_id := none,
             downstream_id := some r.lineID }]
  | ms => ms.map fun j =>
      { barrierID := r.barrierID, upstream_id := some j.upstream_id,
        downstream_id := some r.lineID }

/-- `upstream_barrier_joins` (cut.py lines 113-117): barriers on the
upstream endpoint joined to the upstream neighbours of their line;
a missing match leaves NaN (`none`). -/
def upstreamBarrierJoins (segs : List BarrierSeg) (joins : List Join) :
    List BJRow :=
  (segs.filter onUpstream).flatMap (upstreamEmit joins)

/-- Rows emitted for one downstream-endpoint barrier. -/
def downstreamEmit (joins : List Join) (r : BarrierSeg) : List BJRow :=
  match joins.filter fun j => j.upstream_id = r.lineID with
  | [] => [{ barrierID := r.barrierID, upstream_id := some r.lineID,
             downstream_id := none }]
  | ms => ms.map fun j =>
      { barrierID := r.barrierID, upstream_id := some r.lineID,
        downstream_id := some j.downstream_id }

/-- `downstream_barrier_joins` (cut.py lines 122-126). -/
def downstreamBarrierJoins (segs : List BarrierSeg) (joins : List Join) :
    List BJRow :=
  (segs.filter onDownstream).flatMap (downstreamEmit joins)

/-- Sort key for `split_segments.sort_values(by=["idx", "linepos"])`. -/
def splitLt (a b : BarrierSeg) : Bool :=
  a.lineID < b.lineID ∨ (a.lineID = b.lineID ∧ a.linepos < b.linepos)

/-- A row of the `grouped` frame (cut.py lines 156-179): one row per split
line, carrying the per-line lists of barriers in `linepos` order. -/
structure GroupRow where
  lineID : Nat
  NHDPlusID : Nat
  geometry : Line
  barrierIDs : List Nat
  geometry_barriers : List Pt
deriving DecidableEq, Repr

/-- Aggregate one `groupby("lineID")` group (`first`/`list` aggregations). -/
def mkGroup (k : Nat) (rows : List BarrierSeg) : GroupRow :=
  { lineID := k,
    NHDPlusID := ((rows.head?).map BarrierSeg.NHDPlusID).getD 0,
    geometry := ((rows.head?).map BarrierSeg.geometry).getD [],
    barrierIDs := rows.map BarrierSeg.barrierID,
    geometry_barriers := rows.map BarrierSeg.geometry_barrier }

/-- `grouped` (cut.py lines 156-179) from the sorted split segments. -/
def groupSplits (ss : List BarrierSeg) : List GroupRow :=
  ((ss.map BarrierSeg.lineID).dedup).map fun k =>
    mkGroup k (ss.filter fun r => r.lineID = k)

/-- `geoms = grouped.apply(cut_line_at_points ...)` (cut.py line 182),
keeping each group next to its cut segments; `none` if any cut raises. -/
def cutAll : List GroupRow → Option (List (GroupRow × List Line))
  | [] => some []
  | g :: gs =>
      match cut_line_at_points g.geometry g.geometry_barriers, cutAll gs with
      | some segs, some rest => some ((g, segs) :: rest)
      | _, _ => none

/-- A row of `new_segments` (cut.py lines 187-194). -/
structure NewSeg where
  origLineID : Nat
  i : Nat
  lineID : Nat
  geometry : Line
deriving DecidableEq, Repr

/-- `new_segments` (cut.py lines 187-194): the cut pieces stacked into rows
`(origLineID, i)`, with `lineID = next_segment_id + new_segments.index`
(positions are consecutive across groups). -/
def numberSegs (n : Nat) : List (GroupRow × List Line) → List NewSeg
  | [] => []
  | (g, segs) :: rest =>
      (segs.enum.map fun pr =>
        { origLineID := g.lineID, i := pr.1, lineID := n + pr.1,
          geometry := pr.2 }) ++ numberSegs (n + segs.length) rest

/-- `first` per `origLineID` (cut.py line 209): lineID of the first new
segment of a group, as an index lookup. -/
def firstLookup (new : List NewSeg) (k : Nat) : Option Nat :=
  ((new.filter fun s => s.origLineID = k).head?).map NewSeg.lineID

/-- `last` per `origLineID` (cut.py line 211). -/
def lastLookup (new : List NewSeg) (k : Nat) : Option Nat :=
  ((new.filter fun s => s.origLineID = k).getLast?).map NewSeg.lineID

/-- The values of the `first` series (used by `isin(first)`). -/
def firstVals (new : List NewSeg) : List Nat :=
  ((new.map NewSeg.origLineID).dedup).filterMap (firstLookup new)

/-- The values of the `last` series (used by `isin(last)`). -/
def lastVals (new : List NewSeg) : List Nat :=
  ((new.map NewSeg.origLineID).dedup).filterMap (lastLookup new)

/-- `update_joins` (cut.py lines 19-49): rewrite endpoints of existing joins
through the `first`/`last` maps of the split lines. -/
def updateJoins (joins : List Join) (new : List NewSeg) : List Join :=
  joins.map fun j =>
    { j with
      downstream_id := (firstLookup new j.downstream_id).getD j.downstream_id,
      upstream_id := (lastLookup new j.upstream_id).getD j.upstream_id }

/-- `upstream_side` (cut.py lines 222-226): new segments that are not the
last of their line, keyed by `(origLineID, i)`. -/
def upstreamSide (new : List NewSeg) : List NewSeg :=
  new.filter fun s => ¬ (s.lineID ∈ lastVals new)

/-- `downstream_side` (cut.py lines 228-232): new segments that are not the
first of their line, keyed by `(origLineID, i - 1)`. -/
def downstreamSide (new : List NewSeg) : List NewSeg :=
  new.filter fun s => ¬ (s.lineID ∈ firstVals new)

/-- A row of `new_joins` (cut.py lines 235-248). -/
structure NewJoinRow where
  origLineID : Nat
  i : Nat
  barrierID : Nat
  upstream_id : Nat
  downstream_id : Nat
  upstream : Nat
  downstream : Nat
deriving DecidableEq, Repr

/-- `new_joins` (cut.py lines 235-248): stack the per-line barrier lists and
join the straddling segment on each side by `(origLineID, i)`. -/
def mkNewJoins (groups : List GroupRow) (new : List NewSeg) : List NewJoinRow :=
  groups.flatMap fun g =>
    g.barrierIDs.enum.map fun pr =>
      { origLineID := g.lineID, i := pr.1, barrierID := pr.2,
        upstream_id :=
          (((upstreamSide new).find? fun s =>
              s.origLineID = g.lineID ∧ s.i = pr.1).map NewSeg.lineID).getD 0,
        downstream_id :=
          (((downstreamSide new).find? fun s =>
              s.origLineID = g.lineID ∧ s.i - 1 = pr.1).map NewSeg.lineID).getD 0,
        upstream := g.NHDPlusID, downstream := g.NHDPlusID }

/-- `prep_new_flowlines` (cut.py lines 52-72): join attributes from the
original flowline and recompute `length` and `sinuosity`. -/
def prepNewFlowlines (flowlines : List Flowline) (new : List NewSeg) :
    List Flowline :=
  new.map fun s =>
    let f := flowlines.find? fun f => f.lineID = s.origLineID
    { lineID := s.lineID,
      NHDPlusID := (f.map Flowline.NHDPlusID).getD 0,
      sizeclass := (f.map Flowline.sizeclass).getD "",
      streamorder := (f.map Flowline.streamorder).getD 0,
      length := lineLength s.geometry,
      sinuosity := calculate_sinuosity s.geometry,
      geometry := s.geometry }

/-- Sort key for `updated_joins.sort_values(["downstream_id", "upstream_id"])`. -/
def joinLt (a b : Join) : Bool :=
  a.downstream_id < b.downstream_id ∨
    (a.downstream_id = b.downstream_id ∧ a.upstream_id < b.upstream_id)

/-- Result tuple of `cut_flowlines`. -/
structure CutResult where
  flowlines : List Flowline
  joins : List Join
  barrier_joins : List BJRow
deriving DecidableEq, Repr

/-- `split_segments` (cut.py lines 134-153): the interior-split barrier
rows, sorted by `(lineID, linepos)`. -/
def splitSegs (flowlines : List Flowline) (barriers : List Barrier) :
    List BarrierSeg :=
  sortBy splitLt ((mkBarrierSegments flowlines barriers).filter
    fun r => ¬ (onUpstream r ∨ onDownstream r))

/-- Assembly of the cutter's three output tables (cut.py lines 196-262)
once all line cuts have succeeded. -/
def cutAssemble (flowlines : List Flowline) (barriers : List Barrier)
    (joins : List Join) (nid : Nat) (pairs : List (GroupRow × List Line)) :
    CutResult :=
  let segs := mkBarrierSegments flowlines barriers
  let ss := splitSegs flowlines barriers
  let new := numberSegs nid pairs
  let newJoins := mkNewJoins (groupSplits ss) new
  { flowlines :=
      (flowlines.filter fun f => ¬ (f.lineID ∈ ss.map BarrierSeg.lineID)) ++
        prepNewFlowlines flowlines new,
    joins := sortBy joinLt
      (updateJoins joins new ++ newJoins.map fun r =>
        { upstream_id := r.upstream_id, downstream_id := r.downstream_id,
          upstream := r.upstream, downstream := r.downstream, jtype := none }),
    barrier_joins :=
      (upstreamBarrierJoins segs joins ++ downstreamBarrierJoins segs joins) ++
        newJoins.map fun r =>
          { barrierID := r.barrierID, upstream_id := some r.upstream_id,
            downstream_id := some r.downstream_id } }

/-- `cut_flowlines` (cut.py lines 75-262).  `none` models the Python
exception raised when cutting a line fails (e.g. two barriers projecting to
the same position). -/
def cut_flowlines (flowlines : List Flowline) (barriers : List Barrier)
    (joins : List Join) (next_segment_id : Option Nat) : Option CutResult :=
  let nid := next_segment_id.getD ((flowlines.map Flowline.lineID).foldr max 0 + 1)
  match cutAll (groupSplits (splitSegs flowlines barriers)) with
  | none => none
  | some pairs => some (cutAssemble flowlines barriers joins nid pairs)

/-! ### Network traversal: `nhdnet/nhd/network.py` and the root selection
and upstream index of `custom/sarp/network_analysis.py` (lines 176-248) -/

/-- The upstream dictionary as an association list `downstream ↦ upstreams`. -/
abbrev UpDict := List (Nat × List Nat)

/-- `upstreams.get(id, [])` (network.py line 28). -/
def upGet (dict : UpDict) (id : Nat) : List Nat :=
  ((dict.find? fun p => p.1 = id).map Prod.snd).getD []

/-- The `while ids:` loop of `generate_network` (network.py lines 22-30),
indexed by fuel; `none` when the fuel runs out before the frontier empties.
The Python loop has no visited set: the frontier is simply re-expanded. -/
def genLoop (dict : UpDict) : Nat → List Nat → List Nat → Option (List Nat)
  | _, [], network => some network
  | 0, _ :: _, _ => none
  | fuel + 1, ids, network =>
      genLoop dict fuel (ids.flatMap (upGet dict)) (network ++ ids)

/-- `generate_network` (network.py lines 5-30), fuel-indexed. -/
def generate_network (fuel : Nat) (root_id : Nat) (upstreams : UpDict) :
    Option (List Nat) :=
  genLoop upstreams fuel [root_id] []

/-- Rows of `joins` eligible for the upstream index
(network_analysis.py lines 180-189): both endpoints nonzero and the
upstream not a barrier segment. -/
def eligibleJoin (bsegs : List Nat) (j : Join) : Bool :=
  j.upstream_id ≠ 0 ∧ j.downstream_id ≠ 0 ∧ ¬ (j.upstream_id ∈ bsegs)

/-- The `upstreams` dict (network_analysis.py lines 180-189):
groupby `downstream_id` of the eligible joins. -/
def upstreamsDict (joins : List Join) (bsegs : List Nat) : UpDict :=
  let elig := joins.filter (eligibleJoin bsegs)
  ((elig.map Join.downstream_id).dedup).map fun d =>
    (d, (elig.filter fun j => j.downstream_id = d).map Join.upstream_id)

/-- Barrier segments (network_analysis.py line 176): upstream ids of the
barrier joins, zeroes removed. -/
def barrierSegIds (bjs : List (Nat × Nat)) : List Nat :=
  (bjs.filter fun b => b.1 ≠ 0).map Prod.fst

/-- Origin roots (network_analysis.py lines 193-197): upstream ids of join
rows whose downstream is 0 or is no row's upstream, and that are not
barrier segments. -/
def rootIds (joins : List Join) (bsegs : List Nat) : List Nat :=
  (joins.filter fun j =>
      (j.downstream_id = 0 ∨ ¬ (j.downstream_id ∈ joins.map Join.upstream_id)) ∧
        ¬ (j.upstream_id ∈ bsegs)).map Join.upstream_id

/-- The flattened `(network segment, networkID)` assignment built by
network_analysis.py lines 205-246: origin-rooted networks then
barrier-rooted networks, each root's id serving as the networkID. -/
def networkAssignments (fuel : Nat) (joins : List Join)
    (bjs : List (Nat × Nat)) : Option (List (Nat × Nat)) :=
  let bsegs := barrierSegIds bjs
  let dict := upstreamsDict joins bsegs
  let roots := rootIds joins bsegs
  match roots.mapM fun r =>
      (generate_network fuel r dict).map fun net => net.map fun x => (x, r) with
  | none => none
  | some onets =>
      match bsegs.mapM fun r =>
          (generate_network fuel r dict).map fun net => net.map fun x => (x, r) with
      | none => none
      | some bnets => some (onets.flatMap id ++ bnets.flatMap id)

/-! ### Network statistics: `custom/sarp/stats.py` -/

/-- A row of the `network_df` consumed by `calculate_network_stats`:
a flowline with its network id and joined floodplain statistics
(`none` models a missing floodplain row, i.e. NaN). -/
structure NetSegRow where
  networkID : Nat
  length : ℚ
  sinuosity : ℚ
  sizeclass : String
  floodplain_km2 : Option ℚ
  nat_floodplain_km2 : Option ℚ
deriving DecidableEq, Repr

/-- Pandas float division: NaN/inf (modelled `none`) when dividing by 0. -/
def pdDiv (a b : ℚ) : Option ℚ := if b = 0 then none else some (a / b)

/-- Pandas `groupby(...).sum()` over an optional column: NaN counts as 0. -/
def optSum (l : List (Option ℚ)) : ℚ := (l.map fun v => v.getD 0).sum

/-- A row of the statistics table returned by `calculate_network_stats`. -/
structure NetStatsRow where
  networkID : Nat
  miles : ℚ
  NetworkSinuosity : ℚ
  NumSizeClassGained : Nat
  PctNatFloodplain : Option ℚ
  count : Nat
deriving DecidableEq, Repr

/-- Statistics of one `networkID` group (stats.py lines 19-91). -/
def statsOfGroup (k : Nat) (rows : List NetSegRow) : NetStatsRow :=
  let lengthTotal := (rows.map NetSegRow.length).sum
  let wtdSinuosity :=
    (rows.map fun r => r.sinuosity * (r.length / lengthTotal)).sum
  let numSizeclass := ((rows.map NetSegRow.sizeclass).dedup).length
  let fpSum := optSum (rows.map NetSegRow.floodplain_km2)
  let natSum := optSum (rows.map NetSegRow.nat_floodplain_km2)
  { networkID := k,
    miles := lengthTotal * (621371 / 1000000000),
    NetworkSinuosity := wtdSinuosity,
    NumSizeClassGained := numSizeclass - 1,
    PctNatFloodplain := pdDiv (100 * natSum) fpSum,
    count := rows.length }

/-- `calculate_network_stats` (stats.py): one row per networkID. -/
def calculate_network_stats (df : List NetSegRow) : List NetStatsRow :=
  ((df.map NetSegRow.networkID).dedup).map fun k =>
    statsOfGroup k (df.filter fun r => r.networkID = k)

/-! ### Per-barrier metrics: network_analysis.py lines 280-307 -/

/-- Row-wise `DataFrame.min(axis=1)` over two columns: NaN is skipped. -/
def minSkipNA (a b : Option ℚ) : Option ℚ :=
  match a, b with
  | some x, some y => some (min x y)
  | some x, none => some x
  | none, some y => some y
  | none, none => none

/-- A row of the `barrier_networks` table. -/
structure BarrierNetRow where
  upNetID : Nat
  UpstreamMiles : Option ℚ
  downNetID : Nat
  DownstreamMiles : Option ℚ
  AbsoluteGainMi : Option ℚ
deriving DecidableEq, Repr

/-- network_analysis.py lines 282-307: join upstream network stats on the
barrier's `upstream_id`, find the downstream network through the network
membership of `downstream_id`, take the NaN-skipping row minimum as
`AbsoluteGainMi`, and fill missing net ids with 0. -/
def barrierNetworks (bjs : List (Nat × Nat)) (stats : List NetStatsRow)
    (netByLineID : List (Nat × Nat)) : List BarrierNetRow :=
  bjs.map fun b =>
    let upMiles := (stats.find? fun s => s.networkID = b.1).map NetStatsRow.miles
    let downNet := (netByLineID.find? fun p => p.1 = b.2).map Prod.snd
    let downMiles := downNet.bind fun n =>
      (stats.find? fun s => s.networkID = n).map NetStatsRow.miles
    { upNetID := b.1,
      UpstreamMiles := upMiles,
      downNetID := downNet.getD 0,
      DownstreamMiles := downMiles,
      AbsoluteGainMi := minSkipNA upMiles downMiles }

/-! ### The snapper: `snap_to_line` (`nhdnet/geometry/lines.py` lines 53-133) -/

/-- A flowline row as consumed by the snapper. -/
structure SnapLine where
  lineID : Nat
  NHDPlusID : Nat
  geometry : Line
deriving DecidableEq, Repr

/-- Bounding interval of a line (the 1-D bounding box used by the spatial
index). -/
def lineBounds (l : Line) : ℚ × ℚ :=
  match l with
  | [] => (0, 0)
  | a :: rest => (rest.foldl min a, rest.foldl max a)

/-- Spatial-index hit: the line's bounding box intersects the query window
`[p - tol, p + tol]` (lines.py lines 90-93).  The index is queried by
ordinal position; we return hits in ascending ordinal order. -/
def sindexHits (lines : List SnapLine) (p : ℚ) (tol : ℚ) : List (Nat × SnapLine) :=
  lines.enum.filter fun pr =>
    (lineBounds pr.2.geometry).1 ≤ p + tol ∧ p - tol ≤ (lineBounds pr.2.geometry).2

/-- A row of the `tmp` candidate frame (lines.py lines 97-111). -/
structure SnapCand where
  pt_idx : Nat
  line_i : Nat
  lineID : Nat
  NHDPlusID : Nat
  geometry : Line
  point : ℚ
  snap_dist : ℚ
deriving DecidableEq, Repr

/-- `tmp` (lines.py lines 97-111): one candidate row per (point, index hit),
point-major, with the point-to-line distance. -/
def snapCandidates (points : List Pt) (lines : List SnapLine) (tol : ℚ) :
    List SnapCand :=
  points.enum.flatMap fun pt =>
    (sindexHits lines pt.2 tol).map fun pr =>
      { pt_idx := pt.1, line_i := pr.1, lineID := pr.2.lineID,
        NHDPlusID := pr.2.NHDPlusID, geometry := pr.2.geometry,
        point := pt.2, snap_dist := distToLine pr.2.geometry pt.2 }

/-- Sort key of `tmp.sort_values(by=["pt_idx", "snap_dist"])`. -/
def candLt (a b : SnapCand) : Bool :=
  a.pt_idx < b.pt_idx ∨ (a.pt_idx = b.pt_idx ∧ a.snap_dist < b.snap_dist)

/-- An output row of `snap_to_line`. -/
structure SnapRow where
  pt_idx : Nat
  lineID : Nat
  NHDPlusID : Nat
  snap_dist : ℚ
  nearby : Nat
  geometry : Pt
deriving DecidableEq, Repr

/-- `snap_to_line` (lines.py lines 53-133): filter candidates to tolerance,
sort by `(pt_idx, snap_dist)`, take the first row and group size per point,
snap onto the chosen line, and join back to the points (dropping points with
no candidate). -/
def snap_to_line (points : List Pt) (lines : List SnapLine) (tol : ℚ) :
    List SnapRow :=
  let tmp := (snapCandidates points lines tol).filter fun c => c.snap_dist ≤ tol
  let sorted := sortBy candLt tmp
  let closest := ((sorted.map SnapCand.pt_idx).dedup).filterMap fun k =>
    match sorted.filter fun c => c.pt_idx = k with
    | [] => none
    | c :: cs => some (c, cs.length + 1)
  points.enum.filterMap fun pt =>
    (closest.find? fun pr => pr.1.pt_idx = pt.1).map fun pr =>
      { pt_idx := pt.1, lineID := pr.1.lineID, NHDPlusID := pr.1.NHDPlusID,
        snap_dist := pr.1.snap_dist, nearby := pr.2,
        geometry := interpolate pr.1.geometry (project pr.1.geometry pr.1.point) }

/-! ### Statement-level definitions -/

/-- The traversal loop of `generate_network` never finishes from `root`,
whatever fuel it is given. -/
def divergesAt (up : UpDict) (root : Nat) : Prop :=
  ∀ fuel, generate_network fuel root up = none

/-- `ReachN dict n r x`: `x` is reached from `r` by exactly `n` upstream
steps through the dictionary. -/
def ReachN (dict : UpDict) : Nat → Nat → Nat → Prop
  | 0, r, x => x = r
  | n + 1, r, x => ∃ z, z ∈ upGet dict r ∧ ReachN dict n z x

/-- Upstream reachability: the connected component of the join graph that
an upstream traversal rooted at `r` can cover. -/
def Reach (dict : UpDict) (r x : Nat) : Prop := ∃ n, ReachN dict n r x

/-- The barrier `b` is an interior split of the flowline `f`: its projected
position is strictly between `EPS` and `length - EPS`. -/
def InteriorSplit (f : Flowline) (b : Barrier) : Prop :=
  EPS < project f.geometry b.geometry ∧
    project f.geometry b.geometry < lineLength f.geometry - EPS

/-! ### Concrete inputs for witnesses and counterexamples -/

/-- One straight flowline from 0 to 100 (spec scenario 1). -/
def exFlowlines : List Flowline :=
  [{ lineID := 1, NHDPlusID := 555, sizeclass := "2", streamorder := 1,
     length := 100, sinuosity := 1, geometry := [0, 100] }]

/-- Its origin join row. -/
def exJoins : List Join :=
  [{ upstream_id := 0, downstream_id := 1, upstream := 0, downstream := 555,
     jtype := some "origin" }]

/-- One interior barrier at 40 (spec scenario 1). -/
def exBarriers : List Barrier :=
  [{ barrierID := 10, lineID := 1, geometry := 40 }]

/-- Two barriers projecting to the same interior position 40. -/
def exBarriersSamePos : List Barrier :=
  [{ barrierID := 10, lineID := 1, geometry := 40 },
   { barrierID := 11, lineID := 1, geometry := 40 }]

/-- A braided join table: segment 1 drains to both 2 and 3, which are both
terminal rows. -/
def exBraidJoins : List Join :=
  [{ upstream_id := 1, downstream_id := 2, upstream := 0, downstream := 0,
     jtype := some "internal" },
   { upstream_id := 1, downstream_id := 3, upstream := 0, downstream := 0,
     jtype := some "internal" },
   { upstream_id := 2, downstream_id := 0, upstream := 0, downstream := 0,
     jtype := some "terminal" },
   { upstream_id := 3, downstream_id := 0, upstream := 0, downstream := 0,
     jtype := some "terminal" }]

/-- Network stats table with one network, id 5, of 2 miles. -/
def exStats : List NetStatsRow :=
  [{ networkID := 5, miles := 2, NetworkSinuosity := 1, NumSizeClassGained := 0,
     PctNatFloodplain := none, count := 1 }]

/-- One-network segment table whose floodplain area sums to 0. -/
def exZeroFloodplain : List NetSegRow :=
  [{ networkID := 4, length := 100, sinuosity := 1, sizeclass := "1a",
     floodplain_km2 := some 0, nat_floodplain_km2 := some 0 }]

/-- One-network segment table with a positive floodplain sum and a row with
missing floodplain statistics. -/
def exFloodplainDf : List NetSegRow :=
  [{ networkID := 4, length := 100, sinuosity := 1, sizeclass := "1a",
     floodplain_km2 := some 8, nat_floodplain_km2 := some 2 },
   { networkID := 4, length := 50, sinuosity := 1, sizeclass := "2",
     floodplain_km2 := none, nat_floodplain_km2 := none }]

/-! ## Claim C2: termination of `generate_network` -/

theorem upGet_rank_lt (up : UpDict) (rank : Nat → Nat)
    (h : ∀ p ∈ up, ∀ u ∈ p.2, rank u < rank p.1) :
    ∀ d u, u ∈ upGet up d → rank u < rank d := by
  intro d u hu
  unfold upGet at hu
  cases hfind : up.find? fun p => p.1 = d with
  | none => rw [hfind] at hu; simp at hu
  | some p =>
      rw [hfind] at hu
      simp only [Option.map_some', Option.getD_some] at hu
      have hmem := List.mem_of_find?_eq_some hfind
      have hd : p.1 = d := by
        have := List.find?_some hfind
        exact of_decide_eq_true this
      exact hd ▸ h p hmem u hu

theorem genLoop_succeeds (up : UpDict) (rank : Nat → Nat)
    (h : ∀ d u, u ∈ upGet up d → rank u < rank d) :
    ∀ (n : Nat) (ids net : List Nat), (∀ i ∈ ids, rank i < n) →
      ∃ res, genLoop up n ids net = some res := by
  intro n
  induction n with
  | zero =>
      intro ids net hids
      cases ids with
      | nil => exact ⟨net, rfl⟩
      | cons a as => exact absurd (hids a (List.mem_cons_self a as)) (Nat.not_lt_zero _)
  | succ m ih =>
      intro ids net hids
      cases ids with
      | nil => exact ⟨net, rfl⟩
      | cons a as =>
          have hstep : ∀ i ∈ (a :: as).flatMap (upGet up), rank i < m := by
            intro i hi
            rcases List.mem_flatMap.mp hi with ⟨d, hd, hup⟩
            have h1 : rank i < rank d := h d i hup
            have h2 : rank d < m + 1 := hids d hd
            omega
          rcases ih ((a :: as).flatMap (upGet up)) (net ++ a :: as) hstep with ⟨res, hres⟩
          exact ⟨res, hres⟩

/-- C2 counterexample input: a segment that is its own upstream. -/
theorem genLoop_selfloop :
    ∀ (fuel : Nat) (net : List Nat), genLoop [(1, [1])] fuel [1] net = none := by
  intro fuel
  induction fuel with
  | zero => intro net; rfl
  | succ n ih =>
      intro net
      have hstep : genLoop [(1, [1])] (n + 1) [1] net =
          genLoop [(1, [1])] n (([1] : List Nat).flatMap (upGet [(1, [1])])) (net ++ [1]) := rfl
      rw [hstep]
      have hfl : (([1] : List Nat).flatMap (upGet [(1, [1])])) = [1] := rfl
      rw [hfl]
      exact ih (net ++ [1])

/-- C2 (counterexample): the claim asserts `generate_network` is guarded
against revisiting and returns a finite result for every root and every
finite upstream-adjacency map, including cyclic ones.  On the concrete
one-entry cyclic map `{1 ↦ [1]}` with root `1` the loop never terminates:
it returns `none` for every fuel. -/
theorem C2_counterexample : divergesAt [(1, [1])] 1 := by
  intro fuel
  exact genLoop_selfloop fuel []

/-- C2 (amended): `generate_network` has no visited-set guard, so it does
not terminate on cyclic adjacency maps; it does terminate (returns a finite
result) for every root whenever the adjacency map admits a rank function
that strictly decreases along upstream edges (in particular for every
acyclic joins table). -/
theorem C2_generate_network_terminates (up : UpDict) (rank : Nat → Nat)
    (h : ∀ p ∈ up, ∀ u ∈ p.2, rank u < rank p.1) (root : Nat) :
    ∃ net, generate_network (rank root + 1) root up = some net := by
  have hd := upGet_rank_lt up rank h
  have := genLoop_succeeds up rank hd (rank root + 1) [root] []
    (by intro i hi; rcases List.mem_singleton.mp hi with rfl; omega)
  exact this

/-- C2 witness: the amended theorem applied to the concrete one-edge map
`{5 ↦ [7]}` with rank `x ↦ 8 - x`. -/
theorem C2_witness : ∃ net, generate_network 4 5 [(5, [7])] = some net :=
  C2_generate_network_terminates [(5, [7])] (fun x => 8 - x) (by decide) 5

/-! ## Claim C9: `AbsoluteGainMi` and the downstream-off-region case -/

theorem minSkipNA_none_right (a : Option ℚ) : minSkipNA a none = a := by
  cases a <;> rfl

/-- C9 (counterexample): the claim asserts that when the downstream side of
a barrier exits the analyzed region, `DownstreamMiles = 0`.  On a concrete
barrier join `(5, 9)` whose downstream segment 9 has no network membership,
the code leaves `DownstreamMiles` as NaN (`none`), not 0 (only `downNetID`
is filled with 0). -/
theorem C9_counterexample :
    (barrierNetworks [(5, 9)] exStats [(6, 5)]).map BarrierNetRow.DownstreamMiles
        = [none] ∧
      (barrierNetworks [(5, 9)] exStats [(6, 5)]).map BarrierNetRow.downNetID = [0] ∧
      (none : Option ℚ) ≠ some 0 := by
  refine ⟨rfl, rfl, ?_⟩
  decide

/-- C9 (amended): for every barrier join row, `AbsoluteGainMi` is the
NaN-skipping minimum of `UpstreamMiles` and `DownstreamMiles` (the literal
minimum when both are present); when the downstream side exits the region
(its segment has no network membership), `downNetID = 0`,
`DownstreamMiles` is NaN (`none`, not 0), and `AbsoluteGainMi` equals
`UpstreamMiles`, i.e. is computed from the available side only. -/
theorem C9_barrierNetworks_gain (bjs : List (Nat × Nat))
    (stats : List NetStatsRow) (netBy : List (Nat × Nat)) (b : Nat × Nat)
    (hb : b ∈ bjs) :
    ∃ row ∈ barrierNetworks bjs stats netBy,
      row.upNetID = b.1 ∧
      row.AbsoluteGainMi = minSkipNA row.UpstreamMiles row.DownstreamMiles ∧
      ((∀ p ∈ netBy, p.1 ≠ b.2) →
        row.downNetID = 0 ∧ row.DownstreamMiles = none ∧
          row.AbsoluteGainMi = row.UpstreamMiles) := by
  refine ⟨_, List.mem_map_of_mem _ hb, rfl, rfl, ?_⟩
  intro hoff
  have hfind : (netBy.find? fun p => p.1 = b.2) = none := by
    apply List.find?_eq_none.mpr
    intro p hp
    simp only [decide_eq_true_eq]
    exact hoff p hp
  simp only [barrierNetworks, hfind, Option.map_none, Option.getD_none,
    Option.none_bind]
  exact ⟨rfl, rfl, minSkipNA_none_right _⟩

/-- C9 witness: the amended theorem at the concrete off-region input. -/
theorem C9_witness :
    ∃ row ∈ barrierNetworks [(5, 9)] exStats [(6, 5)],
      row.upNetID = 5 ∧
      row.AbsoluteGainMi = minSkipNA row.UpstreamMiles row.DownstreamMiles ∧
      ((∀ p ∈ [((6 : Nat), (5 : Nat))], p.1 ≠ 9) →
        row.downNetID = 0 ∧ row.DownstreamMiles = none ∧
          row.AbsoluteGainMi = row.UpstreamMiles) :=
  C9_barrierNetworks_gain [(5, 9)] exStats [(6, 5)] (5, 9) (by decide)

/-! ## Claim C10: `PctNatFloodplain` -/

/-- C10 (counterexample): the claim asserts `PctNatFloodplain` is 0 when
the total floodplain area is 0.  On a concrete one-row network whose
floodplain area sums to 0, the code computes `100 * 0 / 0`, which is NaN
(`none`), not 0. -/
theorem C10_counterexample :
    (calculate_network_stats exZeroFloodplain).map NetStatsRow.PctNatFloodplain
        = [none] ∧ (none : Option ℚ) ≠ some 0 := by
  constructor
  · norm_num [calculate_network_stats, statsOfGroup, optSum, pdDiv,
      exZeroFloodplain]
  · decide

/-- C10 (amended): for a network whose total floodplain area is positive
and whose rows have `0 ≤ nat_floodplain_km2 ≤ floodplain_km2` (missing rows
contributing 0 to both sums), `PctNatFloodplain` equals
`100 × Σ nat_floodplain_km2 / Σ floodplain_km2` and lies between 0 and 100
inclusive; when the total floodplain area is 0 it is NaN, not 0. -/
theorem C10_pctNatFloodplain_bounds (df : List NetSegRow) (k : Nat)
    (hk : k ∈ df.map NetSegRow.networkID)
    (hpos : 0 < optSum ((df.filter fun r => r.networkID = k).map
      NetSegRow.floodplain_km2))
    (hnn : ∀ r ∈ df, 0 ≤ r.nat_floodplain_km2.getD 0 ∧
      r.nat_floodplain_km2.getD 0 ≤ r.floodplain_km2.getD 0) :
    ∃ row ∈ calculate_network_stats df, row.networkID = k ∧
      row.PctNatFloodplain = some
        (100 * optSum ((df.filter fun r => r.networkID = k).map
            NetSegRow.nat_floodplain_km2) /
          optSum ((df.filter fun r => r.networkID = k).map
            NetSegRow.floodplain_km2)) ∧
      ∃ v, row.PctNatFloodplain = some v ∧ 0 ≤ v ∧ v ≤ 100 := by
  have hkd : k ∈ (df.map NetSegRow.networkID).dedup := List.mem_dedup.mpr hk
  refine ⟨statsOfGroup k (df.filter fun r => r.networkID = k),
    List.mem_map_of_mem _ hkd, rfl, ?_⟩
  set rows := df.filter fun r => r.networkID = k with hrows
  set fpSum := optSum (rows.map NetSegRow.floodplain_km2) with hfp
  set natSum := optSum (rows.map NetSegRow.nat_floodplain_km2) with hnat
  have hne : fpSum ≠ 0 := ne_of_gt hpos
  have hpct : (statsOfGroup k rows).PctNatFloodplain =
      some (100 * natSum / fpSum) := by
    simp only [statsOfGroup, pdDiv, hne, if_false, ← hfp, ← hnat]
  refine ⟨hpct, 100 * natSum / fpSum, hpct, ?_, ?_⟩
  · have hnatnn : 0 ≤ natSum := by
      rw [hnat]
      unfold optSum
      apply List.sum_nonneg
      intro x hx
      rcases List.mem_map.mp hx with ⟨v, hv, rfl⟩
      rcases List.mem_map.mp hv with ⟨r, hr, rfl⟩
      exact (hnn r (List.mem_of_mem_filter hr)).1
    positivity
  · rw [div_le_iff₀ hpos]
    have hle : natSum ≤ fpSum := by
      rw [hnat, hfp]
      unfold optSum
      rw [List.map_map, List.map_map]
      apply List.sum_le_sum
      intro r hr
      exact (hnn r (List.mem_of_mem_filter hr)).2
    nlinarith

/-- C10 witness: the amended theorem at a concrete two-row network. -/
theorem C10_witness :
    ∃ row ∈ calculate_network_stats exFloodplainDf,
      row.networkID = 4 ∧
      row.PctNatFloodplain = some
        (100 * optSum ((exFloodplainDf.filter fun r => r.networkID = 4).map
            NetSegRow.nat_floodplain_km2) /
          optSum ((exFloodplainDf.filter fun r => r.networkID = 4).map
            NetSegRow.floodplain_km2)) ∧
      ∃ v, row.PctNatFloodplain = some v ∧ 0 ≤ v ∧ v ≤ 100 :=
  C10_pctNatFloodplain_bounds exFloodplainDf 4 (by decide)
    (by norm_num [exFloodplainDf, optSum])
    (by norm_num [exFloodplainDf])

/-! ## Claim C5: coincident barrier positions and micro-segments -/

theorem project_two (a b p : ℚ) (hab : a ≤ b) (h1 : a ≤ p) (h2 : p ≤ b) :
    project [a, b] p = p - a := by
  unfold project projCandidates clampQ
  rw [min_eq_left hab, max_eq_right hab, min_eq_right h2, max_eq_right h1]
  simp only [projCandidates, firstMinFst]
  rw [sub_self, abs_zero, zero_add, abs_of_nonneg (sub_nonneg.mpr h1)]
  rfl

theorem lineLength_two (a b : ℚ) : lineLength [a, b] = |b - a| := by
  simp [lineLength]

theorem cut_line_at_point_two (a b p : ℚ) (h1 : a < p) (h2 : p < b) :
    cut_line_at_point [a, b] p = some [[a, p], [p, b]] := by
  have hab : a ≤ b := le_of_lt (lt_trans h1 h2)
  have hproj : project [a, b] p = p - a :=
    project_two a b p hab (le_of_lt h1) (le_of_lt h2)
  have hlen : lineLength [a, b] = b - a := by
    rw [lineLength_two, abs_of_nonneg (sub_nonneg.mpr hab)]
  unfold cut_line_at_point
  rw [hproj, hlen]
  have hc1 : ¬ (p - a ≤ 0 ∨ b - a ≤ p - a) := by
    push_neg
    constructor
    · linarith
    · linarith
  rw [if_neg hc1]
  unfold cutScan
  have hpa : project [a, b] a = 0 := by
    have := project_two a b a hab le_rfl hab
    simpa using this
  rw [hpa]
  rw [if_neg (by linarith : ¬ (0 : ℚ) = p - a), if_neg (by linarith : ¬ p - a < 0)]
  unfold cutScan
  have hpb : project [a, b] b = b - a := project_two a b b hab hab le_rfl
  rw [hpb]
  rw [if_neg (by linarith : ¬ b - a = p - a), if_pos (by linarith : p - a < b - a)]
  have hint : interpolate [a, b] (p - a) = p := by
    unfold interpolate
    rw [if_pos (by rw [abs_of_nonneg (sub_nonneg.mpr hab)]; linarith),
      if_pos hab]
    ring
  rw [hint]
  simp

/-- C5 (counterexample): the claim asserts that several barriers projecting
to the same interior position each still become their own cut, producing a
zero-length micro-segment.  On the concrete line `[0, 100]` with two
barriers both at position 40, the second `cut_line_at_point` call returns a
single segment and the unpacking in `cut_line_at_points` fails, so
`cut_flowlines` raises instead of producing any output. -/
theorem C5_counterexample :
    cut_flowlines exFlowlines exBarriersSamePos exJoins (some 1001) = none := by
  norm_num [cut_flowlines, mkBarrierSegments, exFlowlines, exBarriersSamePos,
    exJoins, onUpstream, onDownstream, EPS, sortBy, insertBy, splitLt,
    groupSplits, mkGroup, cutAll, cut_line_at_points, cutPoints,
    cut_line_at_point, project, projCandidates, firstMinFst, clampQ,
    lineLength, cutScan, interpolate, mkSeg, splitSegs, cutAssemble]

/-- C5 (amended): barriers at the same interior position make the cut fail
(`cut_line_at_points` unpacks a single-element result and raises), so no
micro-segment is produced; the code also orders coincident barriers by
position only, not by barrier id.  What does hold: barriers at distinct
interior positions each become their own cut, the segment between two
consecutive cut positions has length equal to their difference (near zero
for near-coincident positions), and `calculate_sinuosity` returns 1 for any
segment whose straight-line endpoint distance is 0. -/
theorem C5_cut_distinct_positions (x0 p1 p2 x1 : ℚ) (h01 : x0 < p1)
    (h12 : p1 < p2) (h2e : p2 < x1) :
    cut_line_at_points [x0, x1] [p1, p2] =
        some [[x0, p1], [p1, p2], [p2, x1]] ∧
      lineLength [p1, p2] = p2 - p1 ∧
      ∀ line : Line, |line.getLastD 0 - line.headD 0| = 0 →
        calculate_sinuosity line = 1 := by
  refine ⟨?_, ?_, ?_⟩
  · unfold cut_line_at_points cutPoints
    rw [cut_line_at_point_two x0 x1 p1 h01 (lt_trans h12 h2e)]
    show cutPoints [[x0, p1]] [p1, x1] [p2] = _
    unfold cutPoints
    rw [cut_line_at_point_two p1 x1 p2 h12 h2e]
    rfl
  · rw [lineLength_two, abs_of_nonneg (sub_nonneg.mpr (le_of_lt h12))]
  · intro line h0
    unfold calculate_sinuosity
    rw [h0]
    simp

/-- C5 witness: the amended theorem at the concrete line `[0, 100]` with
barriers at 40 and 41. -/
theorem C5_witness :
    cut_line_at_points [(0 : ℚ), 100] [40, 41] =
        some [[0, 40], [40, 41], [41, 100]] ∧
      lineLength [(40 : ℚ), 41] = 41 - 40 ∧
      ∀ line : Line, |line.getLastD 0 - line.headD 0| = 0 →
        calculate_sinuosity line = 1 :=
  C5_cut_distinct_positions 0 40 41 100 (by norm_num) (by norm_num) (by norm_num)

/-! ## Claim C7: the `type` column of inserted internal joins -/

/-- The cutter's output on spec scenario 1 (one interior barrier at 40 on
the line `[0, 100]`). -/
def exCutResult : CutResult :=
  { flowlines :=
      [{ lineID := 1001, NHDPlusID := 555, sizeclass := "2", streamorder := 1,
         length := 40, sinuosity := 1, geometry := [0, 40] },
       { lineID := 1002, NHDPlusID := 555, sizeclass := "2", streamorder := 1,
         length := 60, sinuosity := 1, geometry := [40, 100] }],
    joins :=
      [{ upstream_id := 0, downstream_id := 1001, upstream := 0,
         downstream := 555, jtype := some "origin" },
       { upstream_id := 1001, downstream_id := 1002, upstream := 555,
         downstream := 555, jtype := none }],
    barrier_joins :=
      [{ barrierID := 10, upstream_id := some 1001,
         downstream_id := some 1002 }] }

theorem cut_flowlines_exEval :
    cut_flowlines exFlowlines exBarriers exJoins (some 1001) =
      some exCutResult := by
  norm_num [cut_flowlines, mkBarrierSegments, exFlowlines, exBarriers, exJoins,
    onUpstream, onDownstream, EPS, sortBy, insertBy, splitLt, joinLt,
    groupSplits, mkGroup, cutAll, cut_line_at_points, cutPoints,
    cut_line_at_point, project, projCandidates, firstMinFst, clampQ,
    lineLength, cutScan, interpolate, numberSegs, firstLookup, lastLookup,
    firstVals, lastVals, updateJoins, upstreamSide, downstreamSide, mkNewJoins,
    prepNewFlowlines, calculate_sinuosity, List.enum, List.enumFrom,
    Function.comp, upstreamBarrierJoins, downstreamBarrierJoins, upstreamEmit,
    downstreamEmit, mkSeg, splitSegs, cutAssemble, exCutResult]

/-- C7 (code bug): the claim (and cut.py line 248, which assigns
`new_joins["type"] = "internal"`) says every inserted join row has type
`internal` and carries the line's NHDPlusID on both sides.  The append at
cut.py lines 250-254 selects only `upstream`, `downstream`, `upstream_id`
and `downstream_id`, dropping the freshly assigned `type` column, so in the
output join table the inserted row for the split of line 1 carries
NHDPlusID 555 on both sides but has a null `type`, not `internal`. -/
theorem C7_type_column_dropped :
    ∃ res, cut_flowlines exFlowlines exBarriers exJoins (some 1001) = some res ∧
      { upstream_id := 1001, downstream_id := 1002, upstream := 555,
        downstream := 555, jtype := none } ∈ res.joins ∧
      ∀ j ∈ res.joins,
        j.upstream_id = 1001 → j.downstream_id = 1002 →
          j.jtype ≠ some "internal" := by
  refine ⟨exCutResult, cut_flowlines_exEval, ?_, ?_⟩
  · decide
  · decide

/-! ## Traversal lemmas shared by C3 and C8 -/

theorem genLoop_subset (dict : UpDict) :
    ∀ (fuel : Nat) (ids net res : List Nat),
      genLoop dict fuel ids net = some res →
      ∀ x, x ∈ net ∨ x ∈ ids → x ∈ res := by
  intro fuel
  induction fuel with
  | zero =>
      intro ids net res h x hx
      cases ids with
      | nil =>
          cases h
          rcases hx with hx | hx
          · exact hx
          · cases hx
      | cons a as => cases h
  | succ n ih =>
      intro ids net res h x hx
      cases ids with
      | nil =>
          cases h
          rcases hx with hx | hx
          · exact hx
          · cases hx
      | cons a as =>
          have h2 : genLoop dict n ((a :: as).flatMap (upGet dict))
              (net ++ a :: as) = some res := h
          apply ih _ _ _ h2
          left
          rcases hx with hx | hx
          · exact List.mem_append_left _ hx
          · exact List.mem_append_right _ hx

theorem genLoop_sound (dict : UpDict) :
    ∀ (fuel : Nat) (ids net res : List Nat),
      genLoop dict fuel ids net = some res →
      ∀ x ∈ res, x ∈ net ∨ ∃ r ∈ ids, Reach dict r x := by
  intro fuel
  induction fuel with
  | zero =>
      intro ids net res h x hx
      cases ids with
      | nil => cases h; exact Or.inl hx
      | cons a as => cases h
  | succ n ih =>
      intro ids net res h x hx
      cases ids with
      | nil => cases h; exact Or.inl hx
      | cons a as =>
          have h2 : genLoop dict n ((a :: as).flatMap (upGet dict))
              (net ++ a :: as) = some res := h
          rcases ih _ _ _ h2 x hx with hmem | ⟨r, hr, hreach⟩
          · rcases List.mem_append.mp hmem with hmem | hmem
            · exact Or.inl hmem
            · exact Or.inr ⟨x, hmem, 0, rfl⟩
          · rcases List.mem_flatMap.mp hr with ⟨i, hi, hup⟩
            rcases hreach with ⟨k, hk⟩
            exact Or.inr ⟨i, hi, k + 1, r, hup, hk⟩

theorem genLoop_complete (dict : UpDict) :
    ∀ (n r x : Nat), ReachN dict n r x →
      ∀ (fuel : Nat) (ids net res : List Nat),
        genLoop dict fuel ids net = some res → r ∈ ids → x ∈ res := by
  intro n
  induction n with
  | zero =>
      intro r x hr fuel ids net res h hmem
      cases hr
      exact genLoop_subset dict fuel ids net res h r (Or.inr hmem)
  | succ k ih =>
      intro r x hr fuel ids net res h hmem
      rcases hr with ⟨z, hz, hreach⟩
      cases fuel with
      | zero =>
          cases ids with
          | nil => cases hmem
          | cons a as => cases h
      | succ m =>
          cases ids with
          | nil => cases hmem
          | cons a as =>
              have h2 : genLoop dict m ((a :: as).flatMap (upGet dict))
                  (net ++ a :: as) = some res := h
              exact ih z x hreach m _ _ res h2
                (List.mem_flatMap.mpr ⟨r, hmem, hz⟩)

theorem keys_find?_self {keys : List Nat} {d : Nat} (h : d ∈ keys) :
    keys.find? (fun k => k = d) = some d := by
  induction keys with
  | nil => cases h
  | cons a as ih =>
      by_cases ha : a = d
      · subst ha
        simp [List.find?]
      · rcases List.mem_cons.mp h with h1 | h1
        · exact absurd h1.symm ha
        · simpa [List.find?, ha] using ih h1

/-- Characterisation of the upstream dictionary lookup
(network_analysis.py lines 180-189). -/
theorem mem_upGet_iff (joins : List Join) (bsegs : List Nat) (d u : Nat) :
    u ∈ upGet (upstreamsDict joins bsegs) d ↔
      ∃ j ∈ joins, j.upstream_id = u ∧ j.downstream_id = d ∧
        j.upstream_id ≠ 0 ∧ j.downstream_id ≠ 0 ∧ ¬ (j.upstream_id ∈ bsegs) := by
  unfold upstreamsDict upGet
  set elig := joins.filter (eligibleJoin bsegs) with helig
  set keys := (elig.map Join.downstream_id).dedup with hkeys
  have hfind : (keys.map fun k =>
      (k, (elig.filter fun j => j.downstream_id = k).map Join.upstream_id)).find?
        (fun p => p.1 = d) =
      (keys.find? fun k => k = d).map fun k =>
        (k, (elig.filter fun j => j.downstream_id = k).map Join.upstream_id) := by
    rw [List.find?_map]
    rfl
  rw [hfind]
  by_cases hd : d ∈ keys
  · rw [keys_find?_self hd]
    simp only [Option.map_some', Option.getD_some]
    constructor
    · intro hu
      rcases List.mem_map.mp hu with ⟨j, hj, rfl⟩
      rcases List.mem_filter.mp hj with ⟨hje, hjd⟩
      rcases List.mem_filter.mp hje with ⟨hjj, hjel⟩
      have hel := of_decide_eq_true hjel
      unfold eligibleJoin at hel
      simp only [decide_eq_true_eq] at hjd hel
      exact ⟨j, hjj, rfl, hjd, hel.1, hel.2.1, hel.2.2⟩
    · rintro ⟨j, hj, rfl, rfl, hnz, hdz, hnb⟩
      apply List.mem_map.mpr
      refine ⟨j, List.mem_filter.mpr ⟨?_, by simp⟩, rfl⟩
      apply List.mem_filter.mpr
      refine ⟨hj, ?_⟩
      unfold eligibleJoin
      simp [hnz, hdz, hnb]
  · have hnone : (keys.find? fun k => k = d) = none := by
      apply List.find?_eq_none.mpr
      intro k hk
      simp only [decide_eq_true_eq]
      intro hkd
      exact hd (hkd ▸ hk)
    rw [hnone]
    simp only [Option.map_none', Option.getD_none, List.not_mem_nil, false_iff]
    rintro ⟨j, hj, rfl, rfl, hnz, hdz, hnb⟩
    apply hd
    rw [hkeys]
    apply List.mem_dedup.mpr
    apply List.mem_map.mpr
    refine ⟨j, ?_, rfl⟩
    rw [helig]
    apply List.mem_filter.mpr
    refine ⟨hj, ?_⟩
    unfold eligibleJoin
    simp [hnz, hdz, hnb]

theorem upGet_ne_zero {joins : List Join} {bsegs : List Nat} {d u : Nat}
    (h : u ∈ upGet (upstreamsDict joins bsegs) d) : u ≠ 0 := by
  rcases (mem_upGet_iff joins bsegs d u).mp h with ⟨j, _, rfl, _, hnz, _⟩
  exact hnz

/-! ## Claim C8: the cutter on an empty barrier table -/

theorem mkBarrierSegments_nil (fls : List Flowline) :
    mkBarrierSegments fls [] = [] := by
  unfold mkBarrierSegments
  induction fls with
  | nil => rfl
  | cons f rest ih => simp_all

theorem updateJoins_nil : ∀ joins : List Join, updateJoins joins [] = joins
  | [] => rfl
  | j :: rest => congrArg (fun l => j :: l) (updateJoins_nil rest)

/-- With no barriers the cutter returns the flowlines unchanged, the joins
re-sorted by `(downstream_id, upstream_id)`, and no barrier joins. -/
theorem cut_flowlines_no_barriers (fls : List Flowline) (joins : List Join)
    (nid : Option Nat) :
    cut_flowlines fls [] joins nid =
      some { flowlines := fls, joins := sortBy joinLt joins,
             barrier_joins := [] } := by
  unfold cut_flowlines
  simp [splitSegs, cutAssemble, mkBarrierSegments_nil, upstreamBarrierJoins,
    downstreamBarrierJoins, groupSplits, sortBy, numberSegs, prepNewFlowlines,
    mkNewJoins, cutAll, updateJoins_nil]

/-- C8 (counterexample): the claim asserts `J' = J` when the barrier table
is empty.  On a concrete two-row join table that is not sorted by
`(downstream_id, upstream_id)`, the cutter re-sorts it
(cut.py line 254), so the output join table differs from the input. -/
theorem C8_counterexample :
    ∃ res, cut_flowlines exFlowlines []
        [{ upstream_id := 1, downstream_id := 2, upstream := 0,
           downstream := 0, jtype := some "internal" },
         { upstream_id := 0, downstream_id := 1, upstream := 0,
           downstream := 555, jtype := some "origin" }] (some 2001) = some res ∧
      res.joins ≠
        [{ upstream_id := 1, downstream_id := 2, upstream := 0,
           downstream := 0, jtype := some "internal" },
         { upstream_id := 0, downstream_id := 1, upstream := 0,
           downstream := 555, jtype := some "origin" }] := by
  refine ⟨_, cut_flowlines_no_barriers _ _ _, ?_⟩
  decide

/-- C8 (amended): with an empty barrier table the cutter returns the
flowline table unchanged and the join table re-sorted by
`(downstream_id, upstream_id)` (equal to `J` as a multiset, and equal to
`J` exactly when `J` is already so sorted), with no barrier joins; and
every functional network rooted at an origin then equals the set of
segments upstream-reachable from its root through the join graph
(the adjacency map excludes nothing since there are no barrier segments).
Termination of the traversal needs the rank hypothesis of C2. -/
theorem C8_no_barriers (fls : List Flowline) (joins : List Join)
    (nid : Option Nat) (res : CutResult)
    (h : cut_flowlines fls [] joins nid = some res)
    (rank : Nat → Nat)
    (hrank : ∀ j ∈ joins, j.upstream_id ≠ 0 → j.downstream_id ≠ 0 →
      rank j.upstream_id < rank j.downstream_id) :
    res.flowlines = fls ∧ res.joins = sortBy joinLt joins ∧
      res.barrier_joins = [] ∧
      ∀ r ∈ rootIds res.joins [], ∃ net,
        generate_network (rank r + 1) r (upstreamsDict res.joins []) = some net ∧
          ∀ x, x ∈ net ↔ Reach (upstreamsDict res.joins []) r x := by
  rw [cut_flowlines_no_barriers fls joins nid] at h
  cases h
  refine ⟨rfl, rfl, rfl, ?_⟩
  intro r hr
  set dict := upstreamsDict (sortBy joinLt joins) [] with hdict
  have hrk : ∀ d u, u ∈ upGet dict d → rank u < rank d := by
    intro d u hu
    rcases (mem_upGet_iff _ _ d u).mp hu with ⟨j, hj, rfl, rfl, hnz, hdz, _⟩
    exact hrank j ((mem_sortBy joinLt joins j).mp hj) hnz hdz
  rcases genLoop_succeeds dict rank hrk (rank r + 1) [r] []
      (by intro i hi; rcases List.mem_singleton.mp hi with rfl; omega) with
    ⟨net, hnet⟩
  refine ⟨net, hnet, ?_⟩
  intro x
  constructor
  · intro hx
    rcases genLoop_sound dict _ _ _ _ hnet x hx with hmem | ⟨r0, hr0, hreach⟩
    · cases hmem
    · rcases List.mem_singleton.mp hr0 with rfl
      exact hreach
  · rintro ⟨n, hn⟩
    exact genLoop_complete dict n r x hn _ _ _ _ hnet (List.mem_singleton.mpr rfl)

/-- The cutter's output on `exFlowlines` with no barriers. -/
def exCutNoBarriers : CutResult :=
  { flowlines := exFlowlines, joins := sortBy joinLt exJoins,
    barrier_joins := [] }

/-- C8 witness: the amended theorem at `exFlowlines`, `exJoins`, no
barriers, with the identity rank function. -/
theorem C8_witness :
    exCutNoBarriers.flowlines = exFlowlines ∧
      exCutNoBarriers.joins = sortBy joinLt exJoins ∧
      exCutNoBarriers.barrier_joins = [] ∧
      ∀ r ∈ rootIds exCutNoBarriers.joins [], ∃ net,
        generate_network (r + 1) r (upstreamsDict exCutNoBarriers.joins []) =
            some net ∧
          ∀ x, x ∈ net ↔ Reach (upstreamsDict exCutNoBarriers.joins []) r x :=
  C8_no_barriers exFlowlines exJoins (some 1001) exCutNoBarriers
    (cut_flowlines_no_barriers exFlowlines exJoins (some 1001))
    (fun x => x) (by decide)

/-! ## Claim C3: a lineID belongs to at most one network -/

theorem reachN_snoc (dict : UpDict) :
    ∀ (k r y : Nat), ReachN dict (k + 1) r y →
      ∃ w, ReachN dict k r w ∧ y ∈ upGet dict w := by
  intro k
  induction k with
  | zero =>
      rintro r y ⟨z, hz, hy⟩
      cases hy
      exact ⟨r, rfl, hz⟩
  | succ k ih =>
      rintro r y ⟨z, hz, hy⟩
      rcases ih z y hy with ⟨w, hw, hyw⟩
      exact ⟨w, ⟨z, hz, hw⟩, hyw⟩

theorem mem_rootIds_iff (joins : List Join) (bsegs : List Nat) (r : Nat) :
    r ∈ rootIds joins bsegs ↔
      ∃ j ∈ joins, j.upstream_id = r ∧
        (j.downstream_id = 0 ∨ ¬ (j.downstream_id ∈ joins.map Join.upstream_id)) ∧
        ¬ (j.upstream_id ∈ bsegs) := by
  unfold rootIds
  constructor
  · intro h
    rcases List.mem_map.mp h with ⟨j, hj, rfl⟩
    rcases List.mem_filter.mp hj with ⟨hjj, hcond⟩
    simp only [decide_eq_true_eq, Bool.and_eq_true, decide_eq_true_eq] at hcond
    refine ⟨j, hjj, rfl, ?_, ?_⟩
    · tauto
    · tauto
  · rintro ⟨j, hj, rfl, hor, hb⟩
    apply List.mem_map.mpr
    refine ⟨j, List.mem_filter.mpr ⟨hj, ?_⟩, rfl⟩
    simp only [decide_eq_true_eq, Bool.and_eq_true, decide_eq_true_eq]
    tauto

theorem parent_unique (joins : List Join) (bsegs : List Nat)
    (H1 : ∀ j ∈ joins, ∀ j2 ∈ joins, j.upstream_id = j2.upstream_id →
      j.upstream_id ≠ 0 → j.downstream_id = j2.downstream_id)
    {u y z : Nat} (hy : u ∈ upGet (upstreamsDict joins bsegs) y)
    (hz : u ∈ upGet (upstreamsDict joins bsegs) z) : y = z := by
  rcases (mem_upGet_iff joins bsegs y u).mp hy with
    ⟨j, hj, hju, hjd, hnz, _, _⟩
  rcases (mem_upGet_iff joins bsegs z u).mp hz with
    ⟨j2, hj2, hj2u, hj2d, _, _, _⟩
  have := H1 j hj j2 hj2 (hju.trans hj2u.symm) hnz
  rw [hjd, hj2d] at this
  exact this

theorem proper_reach_impossible (joins : List Join) (bsegs : List Nat)
    (H1 : ∀ j ∈ joins, ∀ j2 ∈ joins, j.upstream_id = j2.upstream_id →
      j.upstream_id ≠ 0 → j.downstream_id = j2.downstream_id)
    (H2 : ∀ s ∈ bsegs, ∃ j ∈ joins, j.upstream_id = s)
    (k r r2 : Nat)
    (hroot : r ∈ rootIds joins bsegs ∨ r ∈ bsegs)
    (hroot2 : r2 ∈ rootIds joins bsegs ∨ r2 ∈ bsegs)
    (hreach : ReachN (upstreamsDict joins bsegs) (k + 1) r2 r) : False := by
  set dict := upstreamsDict joins bsegs with hdict
  rcases reachN_snoc dict k r2 r hreach with ⟨w, hw, hru⟩
  rcases (mem_upGet_iff joins bsegs w r).mp hru with
    ⟨jr, hjr, hjru, hjrd, hrnz, hwnz, hrnb⟩
  rcases hroot with hr | hr
  · rcases (mem_rootIds_iff joins bsegs r).mp hr with ⟨j, hj, hju, hor, _⟩
    have hdown : j.downstream_id = jr.downstream_id :=
      H1 j hj jr hjr (hju.trans hjru.symm) (by rw [hju, ← hjru]; exact hrnz)
    rw [hjrd] at hdown
    rcases hor with h0 | hnind
    · rw [hdown] at h0
      exact hwnz (hjrd.trans h0)
    · rw [hdown] at hnind
      cases k with
      | zero =>
          have hwr : w = r2 := hw
          rw [hwr] at hnind
          rcases hroot2 with hr2 | hr2
          · rcases (mem_rootIds_iff joins bsegs r2).mp hr2 with
              ⟨j2, hj2, hj2u, _, _⟩
            exact hnind (List.mem_map.mpr ⟨j2, hj2, hj2u⟩)
          · rcases H2 r2 hr2 with ⟨j2, hj2, hj2u⟩
            exact hnind (List.mem_map.mpr ⟨j2, hj2, hj2u⟩)
      | succ k2 =>
          rcases reachN_snoc dict k2 r2 w hw with ⟨w2, _, hwu⟩
          rcases (mem_upGet_iff joins bsegs w2 w).mp hwu with
            ⟨j2, hj2, hj2u, _, _, _, _⟩
          exact hnind (List.mem_map.mpr ⟨j2, hj2, hj2u⟩)
  · rw [← hjru] at hr
    exact hrnb hr

theorem reach_root_eq (joins : List Join) (bsegs : List Nat)
    (H1 : ∀ j ∈ joins, ∀ j2 ∈ joins, j.upstream_id = j2.upstream_id →
      j.upstream_id ≠ 0 → j.downstream_id = j2.downstream_id)
    (H2 : ∀ s ∈ bsegs, ∃ j ∈ joins, j.upstream_id = s) :
    ∀ (n m r1 r2 x : Nat),
      (r1 ∈ rootIds joins bsegs ∨ r1 ∈ bsegs) →
      (r2 ∈ rootIds joins bsegs ∨ r2 ∈ bsegs) →
      ReachN (upstreamsDict joins bsegs) n r1 x →
      ReachN (upstreamsDict joins bsegs) m r2 x → r1 = r2 := by
  intro n
  induction n with
  | zero =>
      intro m r1 r2 x hr1 hr2 h1 h2
      cases h1
      cases m with
      | zero => cases h2; rfl
      | succ m2 =>
          exact absurd h2 fun h =>
            proper_reach_impossible joins bsegs H1 H2 m2 r1 r2 hr1 hr2 h
  | succ n2 ih =>
      intro m r1 r2 x hr1 hr2 h1 h2
      cases m with
      | zero =>
          cases h2
          exact absurd h1 fun h =>
            (proper_reach_impossible joins bsegs H1 H2 n2 r2 r1 hr2 hr1 h).elim
      | succ m2 =>
          rcases reachN_snoc _ n2 r1 x h1 with ⟨w1, hw1, hx1⟩
          rcases reachN_snoc _ m2 r2 x h2 with ⟨w2, hw2, hx2⟩
          have hw : w1 = w2 := parent_unique joins bsegs H1 hx1 hx2
          exact ih m2 r1 r2 w1 hr1 hr2 hw1 (hw ▸ hw2)

/-- C3 (counterexample): the claim asserts every lineID is assigned at most
one network id.  On the concrete braided join table where segment 1 drains
to both 2 and 3 (both terminal), the origin-rooted traversals assign
segment 1 to network 2 and to network 3. -/
theorem C3_counterexample :
    ∃ A, networkAssignments 10 exBraidJoins [] = some A ∧
      (1, 2) ∈ A ∧ (1, 3) ∈ A ∧ (2 : Nat) ≠ 3 := by
  refine ⟨[(2, 2), (1, 2), (3, 3), (1, 3)], ?_, ?_, ?_, ?_⟩
  · decide
  · decide
  · decide
  · decide

/-- C3 (amended): a lineID belongs to at most one functional network
provided the join graph has unique downstream edges (no nonzero
`upstream_id` occurs in two join rows — braided/divergent reaches are what
break the claim) and every barrier segment occurs as some row's
`upstream_id`: any segment found by the traversals of two roots (each an
origin root or a barrier segment) forces the roots, and hence the assigned
network ids, to be equal. -/
theorem C3_networks_disjoint (joins : List Join) (bjs : List (Nat × Nat))
    (H1 : ∀ j ∈ joins, ∀ j2 ∈ joins, j.upstream_id = j2.upstream_id →
      j.upstream_id ≠ 0 → j.downstream_id = j2.downstream_id)
    (H2 : ∀ s ∈ barrierSegIds bjs, ∃ j ∈ joins, j.upstream_id = s)
    (r1 r2 : Nat)
    (hr1 : r1 ∈ rootIds joins (barrierSegIds bjs) ∨ r1 ∈ barrierSegIds bjs)
    (hr2 : r2 ∈ rootIds joins (barrierSegIds bjs) ∨ r2 ∈ barrierSegIds bjs)
    (f1 f2 : Nat) (l1 l2 : List Nat)
    (h1 : generate_network f1 r1 (upstreamsDict joins (barrierSegIds bjs)) =
      some l1)
    (h2 : generate_network f2 r2 (upstreamsDict joins (barrierSegIds bjs)) =
      some l2)
    (x : Nat) (hx1 : x ∈ l1) (hx2 : x ∈ l2) : r1 = r2 := by
  set dict := upstreamsDict joins (barrierSegIds bjs) with hdict
  have hreach1 : Reach dict r1 x := by
    rcases genLoop_sound dict _ _ _ _ h1 x hx1 with hmem | ⟨r0, hr0, hreach⟩
    · cases hmem
    · rcases List.mem_singleton.mp hr0 with rfl
      exact hreach
  have hreach2 : Reach dict r2 x := by
    rcases genLoop_sound dict _ _ _ _ h2 x hx2 with hmem | ⟨r0, hr0, hreach⟩
    · cases hmem
    · rcases List.mem_singleton.mp hr0 with rfl
      exact hreach
  rcases hreach1 with ⟨n, hn⟩
  rcases hreach2 with ⟨m, hm⟩
  exact reach_root_eq joins (barrierSegIds bjs) H1 H2 n m r1 r2 x hr1 hr2 hn hm

/-- C3 witness: the amended theorem on the concrete two-segment chain
`1 → 2 → outlet`, whose single origin root is 2. -/
theorem C3_witness :
    (2 : Nat) = 2 :=
  C3_networks_disjoint
    [{ upstream_id := 1, downstream_id := 2, upstream := 0, downstream := 0,
       jtype := some "internal" },
     { upstream_id := 2, downstream_id := 0, upstream := 0, downstream := 0,
       jtype := some "terminal" }] []
    (by decide) (by decide) 2 2 (by decide) (by decide) 3 3 [2, 1] [2, 1]
    (by decide) (by decide) 1 (by decide) (by decide)

/-! ## Cutter lemmas shared by C1 and C6 -/

theorem filter_flatMap {α β : Type} (p : β → Bool) (g : α → List β) :
    ∀ l : List α, (l.flatMap g).filter p = l.flatMap fun a => (g a).filter p
  | [] => rfl
  | x :: xs => by
      simp only [List.flatMap_cons, List.filter_append,
        filter_flatMap p g xs]

theorem flatMap_eq_of_filter_singleton {α β : Type} (p : α → Bool)
    (g : α → List β) :
    ∀ (l : List α) (a : α), l.filter p = [a] →
      (∀ x ∈ l, p x = false → g x = []) → l.flatMap g = g a := by
  intro l
  induction l with
  | nil => intro a h; cases h
  | cons x xs ih =>
      intro a h hnil
      by_cases hx : p x = true
      · rw [List.filter_cons_of_pos hx] at h
        have hxa : x = a := by
          injection h with h1 _
        have hrest : xs.filter p = [] := by
          injection h with _ h2
        have hxs : xs.flatMap g = [] := by
          apply List.flatMap_eq_nil_iff.mpr
          intro y hy
          apply hnil y (List.mem_cons_of_mem _ hy)
          rcases List.filter_eq_nil_iff.mp hrest y hy with hpy
          exact Bool.eq_false_iff.mpr hpy
        rw [List.flatMap_cons, hxs, List.append_nil, hxa]
      · have hpx : p x = false := Bool.eq_false_iff.mpr hx
        rw [List.filter_cons_of_neg (by simp [hpx])] at h
        rw [List.flatMap_cons, hnil x (List.mem_cons_self x xs) hpx,
          List.nil_append]
        exact ih a h fun y hy => hnil y (List.mem_cons_of_mem _ hy)

theorem filter_key_singleton {α β : Type} [DecidableEq β] (key : α → β) :
    ∀ (l : List α) (b : α), b ∈ l → (l.map key).Nodup →
      (l.filter fun a => key a = key b) = [b] := by
  intro l
  induction l with
  | nil => intro b h; cases h
  | cons x xs ih =>
      intro b hb hnd
      rw [List.map_cons, List.nodup_cons] at hnd
      rcases List.mem_cons.mp hb with rfl | hbx
      · rw [List.filter_cons_of_pos (by simp)]
        congr 1
        apply List.filter_eq_nil_iff.mpr
        intro y hy
        simp only [decide_eq_true_eq]
        intro hkey
        exact hnd.1 (hkey ▸ List.mem_map_of_mem key hy)
      · have hne : ¬ (key x = key b) := by
          intro hkey
          exact hnd.1 (hkey ▸ List.mem_map_of_mem key hbx)
        rw [List.filter_cons_of_neg (by simp [hne])]
        exact ih b hbx hnd.2

/-- Under unique `lineID`s and unique `barrierID`s, the barrier-segment
rows carrying barrier `b` are exactly the single row pairing `b` with its
flowline. -/
theorem segs_filter_barrier (fls : List Flowline) (bars : List Barrier)
    (f : Flowline) (b : Barrier)
    (hfl : (fls.map Flowline.lineID).Nodup)
    (hb : (bars.map Barrier.barrierID).Nodup)
    (hf : f ∈ fls) (hbm : b ∈ bars) (hlink : b.lineID = f.lineID) :
    (mkBarrierSegments fls bars).filter
        (fun r => r.barrierID = b.barrierID) = [mkSeg f b] := by
  unfold mkBarrierSegments
  rw [filter_flatMap]
  have hinner : ∀ f' : Flowline,
      (((bars.filter fun b' => b'.lineID = f'.lineID).map (mkSeg f')).filter
        fun r => r.barrierID = b.barrierID) =
      if f'.lineID = b.lineID then [mkSeg f' b] else [] := by
    intro f'
    rw [List.filter_map]
    have hcomp : ((fun r : BarrierSeg => decide (r.barrierID = b.barrierID)) ∘
        mkSeg f') = fun b' : Barrier => decide (b'.barrierID = b.barrierID) :=
      rfl
    rw [hcomp, List.filter_comm]
    rw [filter_key_singleton Barrier.barrierID bars b hbm hb]
    by_cases h : b.lineID = f'.lineID
    · rw [List.filter_cons_of_pos (by simp [h]), if_pos h.symm]
      rfl
    · rw [List.filter_cons_of_neg (by simp [h]),
        if_neg (fun hc => h hc.symm)]
      rfl
  simp only [hinner]
  have hfls : (fls.filter fun f' => f'.lineID = b.lineID) = [f] := by
    have := filter_key_singleton Flowline.lineID fls f hf hfl
    rw [hlink]
    exact this
  rw [flatMap_eq_of_filter_singleton _ _ fls f hfls]
  · rw [if_pos hlink.symm]
  · intro x _ hpx
    rw [if_neg]
    intro hc
    rw [hc] at hpx
    simp at hpx

theorem upstreamEmit_barrierID (joins : List Join) (r : BarrierSeg) :
    ∀ row ∈ upstreamEmit joins r, row.barrierID = r.barrierID := by
  intro row hrow
  unfold upstreamEmit at hrow
  cases h : joins.filter fun j => j.downstream_id = r.lineID with
  | nil => rw [h] at hrow; rcases List.mem_singleton.mp hrow with rfl; rfl
  | cons m ms =>
      rw [h] at hrow
      rcases List.mem_map.mp hrow with ⟨j, _, rfl⟩
      rfl

theorem downstreamEmit_barrierID (joins : List Join) (r : BarrierSeg) :
    ∀ row ∈ downstreamEmit joins r, row.barrierID = r.barrierID := by
  intro row hrow
  unfold downstreamEmit at hrow
  cases h : joins.filter fun j => j.upstream_id = r.lineID with
  | nil => rw [h] at hrow; rcases List.mem_singleton.mp hrow with rfl; rfl
  | cons m ms =>
      rw [h] at hrow
      rcases List.mem_map.mp hrow with ⟨j, _, rfl⟩
      rfl

/-- Rows of the mid-pipeline barrier-join table for barrier `b`, when `b`'s
single segment row is `seg` and endpoint membership is known. -/
theorem endpointJoins_filter (segs : List BarrierSeg) (joins : List Join)
    (seg : BarrierSeg)
    (hsegs : segs.filter (fun r => r.barrierID = seg.barrierID) = [seg])
    (hup : onUpstream seg = true) (hdown : onDownstream seg = false)
    (j0 : Join) (hj : (joins.filter fun j => j.downstream_id = seg.lineID) = [j0]) :
    ((upstreamBarrierJoins segs joins ++ downstreamBarrierJoins segs joins).filter
        fun row => row.barrierID = seg.barrierID) =
      [{ barrierID := seg.barrierID, upstream_id := some j0.upstream_id,
         downstream_id := some seg.lineID }] := by
  rw [List.filter_append]
  have hupfilter : ((segs.filter onUpstream).filter
      fun r => r.barrierID = seg.barrierID) = [seg] := by
    rw [List.filter_comm, hsegs, List.filter_cons_of_pos hup]
    rfl
  have h1 : ((upstreamBarrierJoins segs joins).filter
      fun row => row.barrierID = seg.barrierID) =
      upstreamEmit joins seg := by
    unfold upstreamBarrierJoins
    rw [filter_flatMap]
    rw [flatMap_eq_of_filter_singleton _ _ _ seg hupfilter]
    · apply List.filter_eq_self.mpr
      intro row hrow
      simp [upstreamEmit_barrierID joins seg row hrow]
    · intro r _ hpr
      apply List.filter_eq_nil_iff.mpr
      intro row hrow
      simp only [decide_eq_true_eq]
      rw [upstreamEmit_barrierID joins r row hrow]
      intro hc
      rw [hc] at hpr
      simp at hpr
  have h2 : ((downstreamBarrierJoins segs joins).filter
      fun row => row.barrierID = seg.barrierID) = [] := by
    unfold downstreamBarrierJoins
    rw [filter_flatMap]
    apply List.flatMap_eq_nil_iff.mpr
    intro r hr
    apply List.filter_eq_nil_iff.mpr
    intro row hrow
    simp only [decide_eq_true_eq]
    rw [downstreamEmit_barrierID joins r row hrow]
    intro hc
    have hrseg : r = seg := by
      have hrsegs : r ∈ segs.filter (fun x => x.barrierID = seg.barrierID) := by
        apply List.mem_filter.mpr
        exact ⟨List.mem_of_mem_filter hr, by simp [hc]⟩
      rw [hsegs] at hrsegs
      exact List.mem_singleton.mp hrsegs
    have : onDownstream seg = true :=
      hrseg ▸ (List.mem_filter.mp hr).2
    rw [hdown] at this
    cases this
  rw [h1, h2, List.append_nil]
  unfold upstreamEmit
  rw [hj]
  rfl

theorem cut_flowlines_some (fls : List Flowline) (bars : List Barrier)
    (joins : List Join) (nid : Nat) (res : CutResult)
    (h : cut_flowlines fls bars joins (some nid) = some res) :
    ∃ pairs, cutAll (groupSplits (splitSegs fls bars)) = some pairs ∧
      res = cutAssemble fls bars joins nid pairs := by
  unfold cut_flowlines at h
  cases hcut : cutAll (groupSplits (splitSegs fls bars)) with
  | none => rw [hcut] at h; cases h
  | some pairs =>
      rw [hcut] at h
      exact ⟨pairs, rfl, (Option.some.inj h).symm⟩

theorem mkNewJoins_barrierID_mem (groups : List GroupRow) (new : List NewSeg) :
    ∀ row ∈ mkNewJoins groups new, ∃ g ∈ groups, row.barrierID ∈ g.barrierIDs := by
  intro row hrow
  unfold mkNewJoins at hrow
  rcases List.mem_flatMap.mp hrow with ⟨g, hg, hrow2⟩
  rcases List.mem_map.mp hrow2 with ⟨pr, hpr, rfl⟩
  refine ⟨g, hg, ?_⟩
  show pr.2 ∈ g.barrierIDs
  rw [← List.enum_map_snd g.barrierIDs]
  exact List.mem_map_of_mem Prod.snd hpr

theorem groupSplits_barrier_mem (ss : List BarrierSeg) :
    ∀ g ∈ groupSplits ss, ∀ bid ∈ g.barrierIDs, ∃ r ∈ ss, r.barrierID = bid := by
  intro g hg bid hbid
  unfold groupSplits at hg
  rcases List.mem_map.mp hg with ⟨k, _, rfl⟩
  unfold mkGroup at hbid
  rcases List.mem_map.mp hbid with ⟨r, hr, rfl⟩
  exact ⟨r, List.mem_of_mem_filter hr, rfl⟩

/-- An endpoint barrier's row never reaches the split-segment table. -/
theorem endpoint_not_split (fls : List Flowline) (bars : List Barrier)
    (f : Flowline) (b : Barrier)
    (hfl : (fls.map Flowline.lineID).Nodup)
    (hb : (bars.map Barrier.barrierID).Nodup)
    (hf : f ∈ fls) (hbm : b ∈ bars) (hlink : b.lineID = f.lineID)
    (hend : onUpstream (mkSeg f b) = true ∨ onDownstream (mkSeg f b) = true) :
    ∀ r ∈ splitSegs fls bars, r.barrierID ≠ b.barrierID := by
  intro r hr hc
  have hr2 := (mem_sortBy splitLt _ r).mp hr
  have hrsegs := List.mem_of_mem_filter hr2
  have hrcond := (List.mem_filter.mp hr2).2
  have hrseg : r = mkSeg f b := by
    have : r ∈ (mkBarrierSegments fls bars).filter
        (fun x => x.barrierID = b.barrierID) :=
      List.mem_filter.mpr ⟨hrsegs, by simp [hc]⟩
    rw [segs_filter_barrier fls bars f b hfl hb hf hbm hlink] at this
    exact List.mem_singleton.mp this
  rw [hrseg] at hrcond
  simp only [decide_eq_true_eq] at hrcond
  rcases hend with hend | hend
  · exact hrcond (Or.inl hend)
  · exact hrcond (Or.inr hend)

/-- Symmetric version of `endpointJoins_filter` for downstream endpoints. -/
theorem endpointJoins_filter_down (segs : List BarrierSeg) (joins : List Join)
    (seg : BarrierSeg)
    (hsegs : segs.filter (fun r => r.barrierID = seg.barrierID) = [seg])
    (hup : onUpstream seg = false) (hdown : onDownstream seg = true)
    (j0 : Join) (hj : (joins.filter fun j => j.upstream_id = seg.lineID) = [j0]) :
    ((upstreamBarrierJoins segs joins ++ downstreamBarrierJoins segs joins).filter
        fun row => row.barrierID = seg.barrierID) =
      [{ barrierID := seg.barrierID, upstream_id := some seg.lineID,
         downstream_id := some j0.downstream_id }] := by
  rw [List.filter_append]
  have hdownfilter : ((segs.filter onDownstream).filter
      fun r => r.barrierID = seg.barrierID) = [seg] := by
    rw [List.filter_comm, hsegs, List.filter_cons_of_pos hdown]
    rfl
  have h1 : ((upstreamBarrierJoins segs joins).filter
      fun row => row.barrierID = seg.barrierID) = [] := by
    unfold upstreamBarrierJoins
    rw [filter_flatMap]
    apply List.flatMap_eq_nil_iff.mpr
    intro r hr
    apply List.filter_eq_nil_iff.mpr
    intro row hrow
    simp only [decide_eq_true_eq]
    rw [upstreamEmit_barrierID joins r row hrow]
    intro hc
    have hrseg : r = seg := by
      have hrsegs : r ∈ segs.filter (fun x => x.barrierID = seg.barrierID) :=
        List.mem_filter.mpr ⟨List.mem_of_mem_filter hr, by simp [hc]⟩
      rw [hsegs] at hrsegs
      exact List.mem_singleton.mp hrsegs
    have : onUpstream seg = true := hrseg ▸ (List.mem_filter.mp hr).2
    rw [hup] at this
    cases this
  have h2 : ((downstreamBarrierJoins segs joins).filter
      fun row => row.barrierID = seg.barrierID) =
      downstreamEmit joins seg := by
    unfold downstreamBarrierJoins
    rw [filter_flatMap]
    rw [flatMap_eq_of_filter_singleton _ _ _ seg hdownfilter]
    · apply List.filter_eq_self.mpr
      intro row hrow
      simp [downstreamEmit_barrierID joins seg row hrow]
    · intro r _ hpr
      apply List.filter_eq_nil_iff.mpr
      intro row hrow
      simp only [decide_eq_true_eq]
      rw [downstreamEmit_barrierID joins r row hrow]
      intro hc
      rw [hc] at hpr
      simp at hpr
  rw [h1, h2, List.nil_append]
  unfold downstreamEmit
  rw [hj]
  rfl

/-- C6: a barrier at an endpoint of its line whose line has no real
neighbour on that side - the join table records that side as the single
sentinel row - yields exactly one barrier-join row, carrying the sentinel 0
on the missing side. -/
theorem C6_endpoint_sentinel (fls : List Flowline) (bars : List Barrier)
    (joins : List Join) (nid : Nat) (res : CutResult)
    (hfl : (fls.map Flowline.lineID).Nodup)
    (hb : (bars.map Barrier.barrierID).Nodup)
    (b : Barrier) (hbm : b ∈ bars) (f : Flowline) (hf : f ∈ fls)
    (hlink : b.lineID = f.lineID)
    (hrun : cut_flowlines fls bars joins (some nid) = some res) :
    (project f.geometry b.geometry ≤ EPS →
      ¬ (lineLength f.geometry - EPS ≤ project f.geometry b.geometry) →
      ∀ j0 ∈ joins, (joins.filter fun j => j.downstream_id = f.lineID) = [j0] →
        j0.upstream_id = 0 →
        res.barrier_joins.filter (fun row => row.barrierID = b.barrierID) =
          [{ barrierID := b.barrierID, upstream_id := some 0,
             downstream_id := some f.lineID }]) ∧
    (lineLength f.geometry - EPS ≤ project f.geometry b.geometry →
      ¬ (project f.geometry b.geometry ≤ EPS) →
      ∀ j0 ∈ joins, (joins.filter fun j => j.upstream_id = f.lineID) = [j0] →
        j0.downstream_id = 0 →
        res.barrier_joins.filter (fun row => row.barrierID = b.barrierID) =
          [{ barrierID := b.barrierID, upstream_id := some f.lineID,
             downstream_id := some 0 }]) := by
  rcases cut_flowlines_some fls bars joins nid res hrun with ⟨pairs, hcut, rfl⟩
  have hsegs := segs_filter_barrier fls bars f b hfl hb hf hbm hlink
  have hbj : (cutAssemble fls bars joins nid pairs).barrier_joins =
      (upstreamBarrierJoins (mkBarrierSegments fls bars) joins ++
        downstreamBarrierJoins (mkBarrierSegments fls bars) joins) ++
        (mkNewJoins (groupSplits (splitSegs fls bars))
          (numberSegs nid pairs)).map (fun r =>
            { barrierID := r.barrierID, upstream_id := some r.upstream_id,
              downstream_id := some r.downstream_id }) := rfl
  constructor
  · intro hup hnotdown j0 _ hj hj0
    have hupb : onUpstream (mkSeg f b) = true := by
      unfold onUpstream mkSeg
      exact decide_eq_true hup
    have hdownb : onDownstream (mkSeg f b) = false := by
      unfold onDownstream mkSeg
      exact decide_eq_false hnotdown
    have hnewnil : ((mkNewJoins (groupSplits (splitSegs fls bars))
        (numberSegs nid pairs)).map (fun r =>
          ({ barrierID := r.barrierID, upstream_id := some r.upstream_id,
             downstream_id := some r.downstream_id } : BJRow))).filter
        (fun row => row.barrierID = b.barrierID) = [] := by
      apply List.filter_eq_nil_iff.mpr
      intro row hrow
      rcases List.mem_map.mp hrow with ⟨nj, hnj, rfl⟩
      simp only [decide_eq_true_eq]
      rcases mkNewJoins_barrierID_mem _ _ nj hnj with ⟨g, hg, hbid⟩
      rcases groupSplits_barrier_mem _ g hg _ hbid with ⟨r, hr, hrb⟩
      intro hc
      exact endpoint_not_split fls bars f b hfl hb hf hbm hlink
        (Or.inl hupb) r hr (hrb.trans hc)
    rw [hbj, List.filter_append, hnewnil, List.append_nil]
    have hrow : ((upstreamBarrierJoins (mkBarrierSegments fls bars) joins ++
        downstreamBarrierJoins (mkBarrierSegments fls bars) joins).filter
          fun row => row.barrierID = b.barrierID) =
        [{ barrierID := b.barrierID, upstream_id := some j0.upstream_id,
           downstream_id := some f.lineID }] :=
      endpointJoins_filter (mkBarrierSegments fls bars) joins
        (mkSeg f b) hsegs hupb hdownb j0 hj
    rw [hrow, hj0]
  · intro hdown hnotup j0 _ hj hj0
    have hupb : onUpstream (mkSeg f b) = false := by
      unfold onUpstream mkSeg
      exact decide_eq_false hnotup
    have hdownb : onDownstream (mkSeg f b) = true := by
      unfold onDownstream mkSeg
      exact decide_eq_true hdown
    have hnewnil : ((mkNewJoins (groupSplits (splitSegs fls bars))
        (numberSegs nid pairs)).map (fun r =>
          ({ barrierID := r.barrierID, upstream_id := some r.upstream_id,
             downstream_id := some r.downstream_id } : BJRow))).filter
        (fun row => row.barrierID = b.barrierID) = [] := by
      apply List.filter_eq_nil_iff.mpr
      intro row hrow
      rcases List.mem_map.mp hrow with ⟨nj, hnj, rfl⟩
      simp only [decide_eq_true_eq]
      rcases mkNewJoins_barrierID_mem _ _ nj hnj with ⟨g, hg, hbid⟩
      rcases groupSplits_barrier_mem _ g hg _ hbid with ⟨r, hr, hrb⟩
      intro hc
      exact endpoint_not_split fls bars f b hfl hb hf hbm hlink
        (Or.inr hdownb) r hr (hrb.trans hc)
    rw [hbj, List.filter_append, hnewnil, List.append_nil]
    have hrow : ((upstreamBarrierJoins (mkBarrierSegments fls bars) joins ++
        downstreamBarrierJoins (mkBarrierSegments fls bars) joins).filter
          fun row => row.barrierID = b.barrierID) =
        [{ barrierID := b.barrierID, upstream_id := some f.lineID,
           downstream_id := some j0.downstream_id }] :=
      endpointJoins_filter_down (mkBarrierSegments fls bars) joins
        (mkSeg f b) hsegs hupb hdownb j0 hj
    rw [hrow, hj0]

/-- One barrier on the upstream endpoint (position 0) of line 1. -/
def exEndBarriers : List Barrier :=
  [{ barrierID := 20, lineID := 1, geometry := 0 }]

/-- The cutter's output for the endpoint barrier scenario. -/
def exCutEnd : CutResult :=
  { flowlines := exFlowlines, joins := sortBy joinLt exJoins,
    barrier_joins :=
      [{ barrierID := 20, upstream_id := some 0, downstream_id := some 1 }] }

theorem cut_flowlines_endEval :
    cut_flowlines exFlowlines exEndBarriers exJoins (some 1001) =
      some exCutEnd := by
  norm_num [cut_flowlines, mkBarrierSegments, exFlowlines, exEndBarriers,
    exJoins, onUpstream, onDownstream, EPS, sortBy, insertBy, splitLt, joinLt,
    groupSplits, mkGroup, cutAll, cut_line_at_points, cutPoints,
    cut_line_at_point, project, projCandidates, firstMinFst, clampQ,
    lineLength, cutScan, interpolate, numberSegs, firstLookup, lastLookup,
    firstVals, lastVals, updateJoins, upstreamSide, downstreamSide, mkNewJoins,
    prepNewFlowlines, calculate_sinuosity, List.enum, List.enumFrom,
    Function.comp, upstreamBarrierJoins, downstreamBarrierJoins, upstreamEmit,
    downstreamEmit, mkSeg, splitSegs, cutAssemble, exCutEnd]

/-- C6 witness: the theorem's upstream case at the concrete endpoint
barrier input. -/
theorem C6_witness :
    exCutEnd.barrier_joins.filter (fun row => row.barrierID = 20) =
      [{ barrierID := 20, upstream_id := some 0, downstream_id := some 1 }] :=
  (C6_endpoint_sentinel exFlowlines exEndBarriers exJoins 1001 exCutEnd
      (by decide) (by decide)
      { barrierID := 20, lineID := 1, geometry := 0 } (by decide)
      { lineID := 1, NHDPlusID := 555, sizeclass := "2", streamorder := 1,
        length := 100, sinuosity := 1, geometry := [0, 100] } (by decide)
      (by decide) cut_flowlines_endEval).1
    (by norm_num [project, projCandidates, firstMinFst, clampQ, EPS])
    (by norm_num [project, projCandidates, firstMinFst, clampQ, EPS,
      lineLength])
    { upstream_id := 0, downstream_id := 1, upstream := 0, downstream := 555,
      jtype := some "origin" } (by decide) (by decide) (by decide)

/-! ## Claim C1: interior splits emit exactly one wired barrier join -/

theorem cutPoints_length :
    ∀ (pts : List Pt) (segs0 : List Line) (rem : Line) (out : List Line),
      cutPoints segs0 rem pts = some out →
      out.length = segs0.length + pts.length + 1 := by
  intro pts
  induction pts with
  | nil =>
      intro segs0 rem out h
      cases h
      simp
  | cons p ps ih =>
      intro segs0 rem out h
      unfold cutPoints at h
      cases hc : cut_line_at_point rem p with
      | none => rw [hc] at h; cases h
      | some parts =>
          rw [hc] at h
          match parts, h with
          | [], h => cases h
          | [_], h => cases h
          | seg :: rem2 :: _ :: _, h => cases h
          | [seg, rem2], h =>
              have := ih (segs0 ++ [seg]) rem2 out h
              simp only [List.length_append, List.length_singleton] at this
              rw [this]
              simp only [List.length_cons]
              omega

theorem cutAll_some :
    ∀ (groups : List GroupRow) (pairs : List (GroupRow × List Line)),
      cutAll groups = some pairs →
      pairs.map Prod.fst = groups ∧
        ∀ p ∈ pairs,
          cut_line_at_points p.1.geometry p.1.geometry_barriers = some p.2 := by
  intro groups
  induction groups with
  | nil =>
      intro pairs h
      cases h
      exact ⟨rfl, by intro p hp; cases hp⟩
  | cons g gs ih =>
      intro pairs h
      unfold cutAll at h
      cases hc : cut_line_at_points g.geometry g.geometry_barriers with
      | none => rw [hc] at h; cases h
      | some segs =>
          rw [hc] at h
          cases hrest : cutAll gs with
          | none => rw [hrest] at h; cases h
          | some rest =>
              rw [hrest] at h
              cases h
              rcases ih rest hrest with ⟨hmap, hall⟩
              refine ⟨by simp [hmap], ?_⟩
              intro p hp
              rcases List.mem_cons.mp hp with rfl | hp2
              · exact hc
              · exact hall p hp2

theorem find?_eq_some_of_unique {α : Type} (p : α → Bool) :
    ∀ (l : List α) (a : α), a ∈ l → p a = true →
      (∀ x ∈ l, p x = true → x = a) → l.find? p = some a := by
  intro l
  induction l with
  | nil => intro a h; cases h
  | cons x xs ih =>
      intro a ha hpa huniq
      by_cases hx : p x = true
      · rw [List.find?_cons_of_pos _ hx]
        rw [huniq x (List.mem_cons_self x xs) hx]
      · rw [List.find?_cons_of_neg _ hx]
        rcases List.mem_cons.mp ha with rfl | ha2
        · exact absurd hpa hx
        · exact ih a ha2 hpa fun y hy hpy =>
            huniq y (List.mem_cons_of_mem _ hy) hpy

theorem filter_singleton_split {α : Type} (p : α → Bool) :
    ∀ (l : List α) (a : α), l.filter p = [a] →
      ∃ l1 l2, l = l1 ++ a :: l2 ∧ (∀ x ∈ l1, p x = false) ∧
        (∀ x ∈ l2, p x = false) := by
  intro l
  induction l with
  | nil => intro a h; cases h
  | cons x xs ih =>
      intro a h
      by_cases hx : p x = true
      · rw [List.filter_cons_of_pos hx] at h
        have hxa : x = a := by injection h
        have hrest : xs.filter p = [] := by injection h
        refine ⟨[], xs, ?_, ?_, ?_⟩
        · rw [hxa]; rfl
        · intro y hy; cases hy
        · intro y hy
          exact Bool.eq_false_iff.mpr (List.filter_eq_nil_iff.mp hrest y hy)
      · have hpx : p x = false := Bool.eq_false_iff.mpr hx
        rw [List.filter_cons_of_neg (by simp [hpx])] at h
        rcases ih a h with ⟨l1, l2, rfl, h1, h2⟩
        exact ⟨x :: l1, l2, rfl, by
          intro y hy
          rcases List.mem_cons.mp hy with rfl | hy2
          · exact hpx
          · exact h1 y hy2, h2⟩

theorem enumFrom_filter_singleton {α : Type} (p : α → Bool) :
    ∀ (l1 : List α) (n : Nat) (a : α) (l2 : List α), p a = true →
      (∀ x ∈ l1, p x = false) → (∀ x ∈ l2, p x = false) →
      ((List.enumFrom n (l1 ++ a :: l2)).filter fun pr => p pr.2) =
        [(n + l1.length, a)] := by
  intro l1
  induction l1 with
  | nil =>
      intro n a l2 hpa h1 h2
      simp only [List.nil_append, List.enumFrom_cons]
      have hrest : ((List.enumFrom (n + 1) l2).filter fun pr => p pr.2) = [] := by
        apply List.filter_eq_nil_iff.mpr
        intro pr hpr
        have : pr.2 ∈ l2 := by
          rw [← List.enumFrom_map_snd (n + 1) l2]
          exact List.mem_map_of_mem Prod.snd hpr
        simp [h2 pr.2 this]
      simp [List.filter_cons, hpa, hrest]
  | cons x xs ih =>
      intro n a l2 hpa h1 h2
      simp only [List.cons_append, List.enumFrom_cons]
      rw [List.filter_cons]
      have hx : p x = false := h1 x (List.mem_cons_self x xs)
      simp only [hx, Bool.false_eq_true, if_false]
      rw [ih (n + 1) a l2 hpa
        (fun y hy => h1 y (List.mem_cons_of_mem _ hy)) h2]
      have harith : n + 1 + xs.length = n + (x :: xs).length := by
        simp only [List.length_cons]
        omega
      rw [harith]

/-- Shorthand for the new-segment rows of one split line. -/
def blkOf (g : GroupRow) (segs : List Line) (m : Nat) : List NewSeg :=
  segs.enum.map fun pr =>
    { origLineID := g.lineID, i := pr.1, lineID := m + pr.1, geometry := pr.2 }

/-- The `j`-th new segment of one split line's block. -/
def blkSeg (g : GroupRow) (segs : List Line) (m j : Nat)
    (hj : j < segs.length) : NewSeg :=
  { origLineID := g.lineID, i := j, lineID := m + j, geometry := segs[j] }

theorem numberSegs_orig :
    ∀ (L : List (GroupRow × List Line)) (n : Nat) (s : NewSeg),
      s ∈ numberSegs n L → ∃ p ∈ L, s.origLineID = p.1.lineID := by
  intro L
  induction L with
  | nil => intro n s h; cases h
  | cons gp rest ih =>
      intro n s h
      unfold numberSegs at h
      rcases List.mem_append.mp h with h1 | h2
      · rcases List.mem_map.mp h1 with ⟨pr, _, rfl⟩
        exact ⟨gp, List.mem_cons_self gp rest, rfl⟩
      · rcases ih (n + gp.2.length) s h2 with ⟨p, hp, hpo⟩
        exact ⟨p, List.mem_cons_of_mem _ hp, hpo⟩

theorem numberSegs_memform :
    ∀ (L : List (GroupRow × List Line)) (n : Nat) (s : NewSeg),
      s ∈ numberSegs n L →
      ∃ p ∈ L, ∃ m, ∃ pr ∈ p.2.enum,
        s = { origLineID := p.1.lineID, i := pr.1, lineID := m + pr.1,
              geometry := pr.2 } := by
  intro L
  induction L with
  | nil => intro n s h; cases h
  | cons gp rest ih =>
      intro n s h
      unfold numberSegs at h
      rcases List.mem_append.mp h with h1 | h2
      · rcases List.mem_map.mp h1 with ⟨pr, hpr, rfl⟩
        exact ⟨gp, List.mem_cons_self gp rest, n, pr, hpr, rfl⟩
      · rcases ih (n + gp.2.length) s h2 with ⟨p, hp, m, pr, hpr, hs⟩
        exact ⟨p, List.mem_cons_of_mem _ hp, m, pr, hpr, hs⟩

theorem numberSegs_block :
    ∀ (L : List (GroupRow × List Line)) (n : Nat) (g : GroupRow)
      (segs : List Line),
      (L.map fun p => p.1.lineID).Nodup → (g, segs) ∈ L →
      ∃ m, (numberSegs n L).filter (fun s => s.origLineID = g.lineID) =
        blkOf g segs m := by
  unfold blkOf
  intro L
  induction L with
  | nil => intro n g segs _ h; cases h
  | cons gp rest ih =>
      intro n g segs hnd hmem
      rw [List.map_cons, List.nodup_cons] at hnd
      unfold numberSegs
      rw [List.filter_append]
      rcases List.mem_cons.mp hmem with heq | hmem2
      · have hg : gp.1 = g := congrArg Prod.fst heq.symm
        have hsegs : gp.2 = segs := congrArg Prod.snd heq.symm
        refine ⟨n, ?_⟩
        have hblk : ((gp.2.enum.map fun pr =>
            ({ origLineID := gp.1.lineID, i := pr.1, lineID := n + pr.1,
               geometry := pr.2 } : NewSeg)).filter
              fun s => s.origLineID = g.lineID) =
            gp.2.enum.map fun pr =>
              ({ origLineID := gp.1.lineID, i := pr.1, lineID := n + pr.1,
                 geometry := pr.2 } : NewSeg) := by
          apply List.filter_eq_self.mpr
          intro s hs
          rcases List.mem_map.mp hs with ⟨pr, _, rfl⟩
          simp [hg]
        have hrest : ((numberSegs (n + gp.2.length) rest).filter
            fun s => s.origLineID = g.lineID) = [] := by
          apply List.filter_eq_nil_iff.mpr
          intro s hs
          rcases numberSegs_orig rest _ s hs with ⟨p, hp, hpo⟩
          simp only [decide_eq_true_eq]
          rw [hpo, ← hg]
          intro hc
          exact hnd.1 (hc ▸ List.mem_map_of_mem (fun p => p.1.lineID) hp)
        rw [hblk, hrest, List.append_nil, hg, hsegs]
      · have hgne : g.lineID ≠ gp.1.lineID := by
          intro hc
          exact hnd.1 (hc ▸ List.mem_map_of_mem (fun p => p.1.lineID) hmem2)
        have hblk : ((gp.2.enum.map fun pr =>
            ({ origLineID := gp.1.lineID, i := pr.1, lineID := n + pr.1,
               geometry := pr.2 } : NewSeg)).filter
              fun s => s.origLineID = g.lineID) = [] := by
          apply List.filter_eq_nil_iff.mpr
          intro s hs
          rcases List.mem_map.mp hs with ⟨pr, _, rfl⟩
          simp only [decide_eq_true_eq]
          exact fun hc => hgne hc.symm
        rw [hblk, List.nil_append]
        exact ih (n + gp.2.length) g segs hnd.2 hmem2

theorem numberSegs_lineIDs :
    ∀ (L : List (GroupRow × List Line)) (n : Nat),
      (numberSegs n L).map NewSeg.lineID =
        List.range' n ((L.map fun p => p.2.length).sum) := by
  intro L
  induction L with
  | nil => intro n; simp [numberSegs]
  | cons gp rest ih =>
      intro n
      unfold numberSegs
      rw [List.map_append, ih (n + gp.2.length)]
      have hblk : ((gp.2.enum.map fun pr =>
          ({ origLineID := gp.1.lineID, i := pr.1, lineID := n + pr.1,
             geometry := pr.2 } : NewSeg)).map NewSeg.lineID) =
          List.range' n gp.2.length := by
        rw [List.map_map]
        have h1 : (NewSeg.lineID ∘ fun pr : Nat × Line =>
            ({ origLineID := gp.1.lineID, i := pr.1, lineID := n + pr.1,
               geometry := pr.2 } : NewSeg)) =
            fun pr : Nat × Line => n + pr.1 := rfl
        rw [h1]
        have h2 : (fun pr : Nat × Line => n + pr.1) =
            ((fun k => n + k) ∘ Prod.fst) := rfl
        rw [h2, ← List.map_map, List.enum_map_fst, List.range'_eq_map_range]
      rw [hblk]
      rw [List.map_cons, List.sum_cons]
      have hstep : n + gp.2.length = n + 1 * gp.2.length := by omega
      rw [hstep, List.range'_append]
      rw [Nat.add_comm ((rest.map fun p => p.2.length).sum) gp.2.length]

theorem numberSegs_lineID_inj (L : List (GroupRow × List Line)) (n : Nat) :
    ∀ s ∈ numberSegs n L, ∀ t ∈ numberSegs n L,
      s.lineID = t.lineID → s = t := by
  have hnd : ((numberSegs n L).map NewSeg.lineID).Nodup := by
    rw [numberSegs_lineIDs]
    exact List.nodup_range' _ _
  exact fun s hs t ht h =>
    List.inj_on_of_nodup_map hnd hs ht h

theorem blkOf_getElem (g : GroupRow) (segs : List Line) (m j : Nat)
    (hj : j < segs.length) :
    (blkOf g segs m)[j]? = some (blkSeg g segs m j hj) := by
  unfold blkOf blkSeg
  rw [List.getElem?_map, List.getElem?_enum, List.getElem?_eq_getElem hj]
  rfl

theorem blkOf_length (g : GroupRow) (segs : List Line) (m : Nat) :
    (blkOf g segs m).length = segs.length := by
  unfold blkOf
  rw [List.length_map, List.enum_length]

theorem blkOf_elem_unique (g : GroupRow) (segs : List Line) (m j : Nat)
    (hj : j < segs.length) :
    ∀ x ∈ blkOf g segs m, x.i = j → x = blkSeg g segs m j hj := by
  intro x hx hxi
  unfold blkOf blkSeg at *
  rcases List.mem_map.mp hx with ⟨pr, hpr, rfl⟩
  have hpr1 : pr.1 = j := hxi
  have := List.mem_enum_iff_getElem?.mp hpr
  rw [hpr1, List.getElem?_eq_getElem hj] at this
  have hpr2 : pr.2 = segs[j] := (Option.some.inj this).symm
  simp [hpr1, hpr2]

/-- A new segment of a block that is not its line's last piece is not a
`last` value of any line. -/
theorem not_mem_lastVals (pairs : List (GroupRow × List Line)) (nid : Nat)
    (hnd : (pairs.map fun p => p.1.lineID).Nodup)
    (g : GroupRow) (segs : List Line) (m : Nat)
    (hpair : (g, segs) ∈ pairs)
    (hblk : (numberSegs nid pairs).filter (fun s => s.origLineID = g.lineID) =
      blkOf g segs m)
    (j : Nat) (hj : j < segs.length) (hjlt : j < segs.length - 1) :
    ¬ (m + j ∈ lastVals (numberSegs nid pairs)) := by
  intro hin
  set new := numberSegs nid pairs with hnew
  have hsj : blkSeg g segs m j hj ∈ new := by
    have hmem : blkSeg g segs m j hj ∈ blkOf g segs m :=
      List.getElem?_mem (blkOf_getElem g segs m j hj)
    rw [← hblk] at hmem
    exact List.mem_of_mem_filter hmem
  unfold lastVals at hin
  rcases List.mem_filterMap.mp hin with ⟨k, hk, hlast⟩
  have hk2 : ∃ s2 ∈ new, s2.origLineID = k := by
    rcases List.mem_map.mp (List.mem_dedup.mp hk) with ⟨s2, hs2, hs2o⟩
    exact ⟨s2, hs2, hs2o⟩
  rcases hk2 with ⟨s2, hs2, hs2o⟩
  rcases numberSegs_orig pairs nid s2 hs2 with ⟨p2, hp2, hp2o⟩
  have hkey : k = p2.1.lineID := hs2o ▸ hp2o
  rcases numberSegs_block pairs nid p2.1 p2.2 hnd hp2 with ⟨m2, hblk2⟩
  have hlen2 : p2.2.length ≠ 0 := by
    intro hc
    have : (blkOf p2.1 p2.2 m2).length = 0 := by
      rw [blkOf_length, hc]
    rw [← hblk2] at this
    have hs2mem : s2 ∈ (numberSegs nid pairs).filter
        (fun s => s.origLineID = p2.1.lineID) :=
      List.mem_filter.mpr ⟨hs2, by simp [hp2o]⟩
    rw [List.length_eq_zero.mp this] at hs2mem
    cases hs2mem
  have hjl2 : p2.2.length - 1 < p2.2.length := by omega
  have hlastval : lastLookup new k = some (m2 + (p2.2.length - 1)) := by
    unfold lastLookup
    rw [hkey, hblk2, List.getLast?_eq_getElem?, blkOf_length,
      blkOf_getElem p2.1 p2.2 m2 (p2.2.length - 1) hjl2]
    rfl
  rw [hlastval] at hlast
  have hid : m2 + (p2.2.length - 1) = m + j := Option.some.inj hlast
  have ht : blkSeg p2.1 p2.2 m2 (p2.2.length - 1) hjl2 ∈ new := by
    have hmem : blkSeg p2.1 p2.2 m2 (p2.2.length - 1) hjl2 ∈
        blkOf p2.1 p2.2 m2 :=
      List.getElem?_mem (blkOf_getElem p2.1 p2.2 m2 (p2.2.length - 1) hjl2)
    rw [← hblk2] at hmem
    exact List.mem_of_mem_filter hmem
  have heq := numberSegs_lineID_inj pairs nid _ hsj _ ht
    (by simp [blkSeg, hid])
  have hio : g.lineID = p2.1.lineID := congrArg NewSeg.origLineID heq
  have hii : j = p2.2.length - 1 := congrArg NewSeg.i heq
  have hpeq : (g, segs) = p2 :=
    List.inj_on_of_nodup_map hnd hpair hp2 hio
  have hsegs2 : segs = p2.2 := congrArg Prod.snd hpeq
  rw [← hsegs2] at hii
  omega

/-- A new segment of a block that is not its line's first piece is not a
`first` value of any line. -/
theorem not_mem_firstVals (pairs : List (GroupRow × List Line)) (nid : Nat)
    (hnd : (pairs.map fun p => p.1.lineID).Nodup)
    (g : GroupRow) (segs : List Line) (m : Nat)
    (_hpair : (g, segs) ∈ pairs)
    (hblk : (numberSegs nid pairs).filter (fun s => s.origLineID = g.lineID) =
      blkOf g segs m)
    (j : Nat) (hj : j < segs.length) (hjpos : 0 < j) :
    ¬ (m + j ∈ firstVals (numberSegs nid pairs)) := by
  intro hin
  set new := numberSegs nid pairs with hnew
  have hsj : blkSeg g segs m j hj ∈ new := by
    have hmem : blkSeg g segs m j hj ∈ blkOf g segs m :=
      List.getElem?_mem (blkOf_getElem g segs m j hj)
    rw [← hblk] at hmem
    exact List.mem_of_mem_filter hmem
  unfold firstVals at hin
  rcases List.mem_filterMap.mp hin with ⟨k, hk, hfirst⟩
  rcases List.mem_map.mp (List.mem_dedup.mp hk) with ⟨s2, hs2, hs2o⟩
  rcases numberSegs_orig pairs nid s2 hs2 with ⟨p2, hp2, hp2o⟩
  have hkey : k = p2.1.lineID := hs2o ▸ hp2o
  rcases numberSegs_block pairs nid p2.1 p2.2 hnd hp2 with ⟨m2, hblk2⟩
  have hlen2 : p2.2.length ≠ 0 := by
    intro hc
    have : (blkOf p2.1 p2.2 m2).length = 0 := by
      rw [blkOf_length, hc]
    rw [← hblk2] at this
    have hs2mem : s2 ∈ (numberSegs nid pairs).filter
        (fun s => s.origLineID = p2.1.lineID) :=
      List.mem_filter.mpr ⟨hs2, by simp [hp2o]⟩
    rw [List.length_eq_zero.mp this] at hs2mem
    cases hs2mem
  have hj0 : 0 < p2.2.length := by omega
  have hfirstval : firstLookup new k = some (m2 + 0) := by
    unfold firstLookup
    rw [hkey, hblk2, List.head?_eq_getElem?,
      blkOf_getElem p2.1 p2.2 m2 0 hj0]
    rfl
  rw [hfirstval] at hfirst
  have hid : m2 + 0 = m + j := Option.some.inj hfirst
  have ht : blkSeg p2.1 p2.2 m2 0 hj0 ∈ new := by
    have hmem : blkSeg p2.1 p2.2 m2 0 hj0 ∈ blkOf p2.1 p2.2 m2 :=
      List.getElem?_mem (blkOf_getElem p2.1 p2.2 m2 0 hj0)
    rw [← hblk2] at hmem
    exact List.mem_of_mem_filter hmem
  have heq := numberSegs_lineID_inj pairs nid _ hsj _ ht
    (by simp [blkSeg, hid])
  have hii : j = 0 := congrArg NewSeg.i heq
  omega

theorem filter_eq_singleton_of_nodup {α : Type} [DecidableEq α] :
    ∀ (l : List α) (a : α), a ∈ l → l.Nodup →
      (l.filter fun x => x = a) = [a] := by
  intro l
  induction l with
  | nil => intro a h; cases h
  | cons x xs ih =>
      intro a ha hnd
      rw [List.nodup_cons] at hnd
      rcases List.mem_cons.mp ha with rfl | ha2
      · rw [List.filter_cons_of_pos (by simp)]
        congr 1
        apply List.filter_eq_nil_iff.mpr
        intro y hy
        simp only [decide_eq_true_eq]
        intro hya
        exact hnd.1 (hya ▸ hy)
      · have hne : ¬ (x = a) := fun hc => hnd.1 (hc ▸ ha2)
        rw [List.filter_cons_of_neg (by simp [hne])]
        exact ih a ha2 hnd.2

theorem groupSplits_barrier_mem_line (ss : List BarrierSeg) :
    ∀ g ∈ groupSplits ss, ∀ bid ∈ g.barrierIDs,
      ∃ r ∈ ss, r.barrierID = bid ∧ r.lineID = g.lineID := by
  intro g hg bid hbid
  unfold groupSplits at hg
  rcases List.mem_map.mp hg with ⟨k, _, rfl⟩
  unfold mkGroup at hbid
  rcases List.mem_map.mp hbid with ⟨r, hr, rfl⟩
  have hrk := (List.mem_filter.mp hr).2
  simp only [decide_eq_true_eq] at hrk
  exact ⟨r, List.mem_of_mem_filter hr, rfl, hrk⟩

/-- An interior-split barrier contributes nothing to the endpoint
barrier-join rows. -/
theorem interiorJoins_bj0_empty (segs : List BarrierSeg) (joins : List Join)
    (seg : BarrierSeg)
    (hsegs : segs.filter (fun r => r.barrierID = seg.barrierID) = [seg])
    (hup : onUpstream seg = false) (hdown : onDownstream seg = false) :
    ((upstreamBarrierJoins segs joins ++ downstreamBarrierJoins segs joins).filter
        fun row => row.barrierID = seg.barrierID) = [] := by
  rw [List.filter_append]
  have h1 : ((upstreamBarrierJoins segs joins).filter
      fun row => row.barrierID = seg.barrierID) = [] := by
    unfold upstreamBarrierJoins
    rw [filter_flatMap]
    apply List.flatMap_eq_nil_iff.mpr
    intro r hr
    apply List.filter_eq_nil_iff.mpr
    intro row hrow
    simp only [decide_eq_true_eq]
    rw [upstreamEmit_barrierID joins r row hrow]
    intro hc
    have hrseg : r = seg := by
      have hrsegs : r ∈ segs.filter (fun x => x.barrierID = seg.barrierID) :=
        List.mem_filter.mpr ⟨List.mem_of_mem_filter hr, by simp [hc]⟩
      rw [hsegs] at hrsegs
      exact List.mem_singleton.mp hrsegs
    have : onUpstream seg = true := hrseg ▸ (List.mem_filter.mp hr).2
    rw [hup] at this
    cases this
  have h2 : ((downstreamBarrierJoins segs joins).filter
      fun row => row.barrierID = seg.barrierID) = [] := by
    unfold downstreamBarrierJoins
    rw [filter_flatMap]
    apply List.flatMap_eq_nil_iff.mpr
    intro r hr
    apply List.filter_eq_nil_iff.mpr
    intro row hrow
    simp only [decide_eq_true_eq]
    rw [downstreamEmit_barrierID joins r row hrow]
    intro hc
    have hrseg : r = seg := by
      have hrsegs : r ∈ segs.filter (fun x => x.barrierID = seg.barrierID) :=
        List.mem_filter.mpr ⟨List.mem_of_mem_filter hr, by simp [hc]⟩
      rw [hsegs] at hrsegs
      exact List.mem_singleton.mp hrsegs
    have : onDownstream seg = true := hrseg ▸ (List.mem_filter.mp hr).2
    rw [hdown] at this
    cases this
  rw [h1, h2]
  rfl

/-- The `new_joins` row produced for an interior barrier whose line list
position is `i`. -/
def njRowFor (ss : List BarrierSeg) (new : List NewSeg) (seg : BarrierSeg)
    (i : Nat) : NewJoinRow :=
  { origLineID := seg.lineID, i := i, barrierID := seg.barrierID,
    upstream_id :=
      (((upstreamSide new).find? fun s =>
          s.origLineID = seg.lineID ∧ s.i = i).map NewSeg.lineID).getD 0,
    downstream_id :=
      (((downstreamSide new).find? fun s =>
          s.origLineID = seg.lineID ∧ s.i - 1 = i).map NewSeg.lineID).getD 0,
    upstream :=
      (mkGroup seg.lineID (ss.filter fun r => r.lineID = seg.lineID)).NHDPlusID,
    downstream :=
      (mkGroup seg.lineID (ss.filter fun r => r.lineID = seg.lineID)).NHDPlusID }

theorem mkNewJoins_filter_interior (ss : List BarrierSeg) (new : List NewSeg)
    (seg : BarrierSeg)
    (hssf : ss.filter (fun r => r.barrierID = seg.barrierID) = [seg]) :
    ∃ i, i < (ss.filter fun r => r.lineID = seg.lineID).length ∧
      (mkNewJoins (groupSplits ss) new).filter
          (fun r => r.barrierID = seg.barrierID) = [njRowFor ss new seg i] := by
  have hmem : seg ∈ ss := by
    apply List.mem_of_mem_filter (p := fun r => r.barrierID = seg.barrierID)
    rw [hssf]
    exact List.mem_singleton.mpr rfl
  have hrowsB : ((ss.filter fun r => r.lineID = seg.lineID).filter
      fun r => r.barrierID = seg.barrierID) = [seg] := by
    rw [List.filter_comm, hssf, List.filter_cons_of_pos (by simp)]
    rfl
  rcases filter_singleton_split _ _ seg hrowsB with ⟨r1, r2, hdec, hs1, hs2⟩
  refine ⟨r1.length, ?_, ?_⟩
  · rw [hdec]
    rw [List.length_append, List.length_cons]
    omega
  · have hkeymem : seg.lineID ∈ (ss.map BarrierSeg.lineID).dedup :=
      List.mem_dedup.mpr (List.mem_map_of_mem BarrierSeg.lineID hmem)
    unfold mkNewJoins
    rw [filter_flatMap]
    rw [flatMap_eq_of_filter_singleton (fun g => g.lineID = seg.lineID) _
      (groupSplits ss)
      (mkGroup seg.lineID (ss.filter fun r => r.lineID = seg.lineID))
      ?groupsingle ?groupelse]
    case groupsingle =>
      unfold groupSplits
      rw [List.filter_map]
      have hcomp : ((fun g : GroupRow => decide (g.lineID = seg.lineID)) ∘
          fun k => mkGroup k (ss.filter fun r => r.lineID = k)) =
          fun k => decide (k = seg.lineID) := rfl
      rw [hcomp,
        filter_eq_singleton_of_nodup _ seg.lineID hkeymem (List.nodup_dedup _)]
      rfl
    case groupelse =>
      intro g hg hpg
      apply List.filter_eq_nil_iff.mpr
      intro row hrow
      rcases List.mem_map.mp hrow with ⟨pr, hpr, rfl⟩
      simp only [decide_eq_true_eq]
      intro hc
      have hbid : pr.2 ∈ g.barrierIDs := by
        rw [← List.enum_map_snd g.barrierIDs]
        exact List.mem_map_of_mem Prod.snd hpr
      rcases groupSplits_barrier_mem_line ss g hg pr.2 hbid with ⟨r, hr, hrb, hrl⟩
      have hrseg : r = seg := by
        have hrmem : r ∈ ss.filter (fun x => x.barrierID = seg.barrierID) :=
          List.mem_filter.mpr ⟨hr, by simp [hrb, hc]⟩
        rw [hssf] at hrmem
        exact List.mem_singleton.mp hrmem
      rw [hrseg] at hrl
      rw [hrl] at hpg
      simp at hpg
    rw [List.filter_map]
    have hcomp2 : ((fun r : NewJoinRow => decide (r.barrierID = seg.barrierID)) ∘
        fun pr : Nat × Nat =>
          ({ origLineID := (mkGroup seg.lineID
               (ss.filter fun r => r.lineID = seg.lineID)).lineID,
             i := pr.1, barrierID := pr.2,
             upstream_id := (((upstreamSide new).find? fun s =>
                 s.origLineID = (mkGroup seg.lineID
                   (ss.filter fun r => r.lineID = seg.lineID)).lineID ∧
                   s.i = pr.1).map NewSeg.lineID).getD 0,
             downstream_id := (((downstreamSide new).find? fun s =>
                 s.origLineID = (mkGroup seg.lineID
                   (ss.filter fun r => r.lineID = seg.lineID)).lineID ∧
                   s.i - 1 = pr.1).map NewSeg.lineID).getD 0,
             upstream := (mkGroup seg.lineID
               (ss.filter fun r => r.lineID = seg.lineID)).NHDPlusID,
             downstream := (mkGroup seg.lineID
               (ss.filter fun r => r.lineID = seg.lineID)).NHDPlusID } :
            NewJoinRow)) =
        fun pr : Nat × Nat => decide (pr.2 = seg.barrierID) := rfl
    rw [hcomp2]
    have hbl : (mkGroup seg.lineID
        (ss.filter fun r => r.lineID = seg.lineID)).barrierIDs =
        (r1.map BarrierSeg.barrierID) ++
          seg.barrierID :: (r2.map BarrierSeg.barrierID) := by
      unfold mkGroup
      rw [hdec]
      simp
    rw [hbl]
    rw [show ∀ l : List Nat, l.enum = List.enumFrom 0 l from fun _ => rfl]
    have hside1 : ∀ x ∈ r1.map BarrierSeg.barrierID,
        (fun bid : Nat => decide (bid = seg.barrierID)) x = false := by
      intro x hx
      rcases List.mem_map.mp hx with ⟨r, hr, rfl⟩
      exact hs1 r hr
    have hside2 : ∀ x ∈ r2.map BarrierSeg.barrierID,
        (fun bid : Nat => decide (bid = seg.barrierID)) x = false := by
      intro x hx
      rcases List.mem_map.mp hx with ⟨r, hr, rfl⟩
      exact hs2 r hr
    have heq := enumFrom_filter_singleton
      (fun bid : Nat => decide (bid = seg.barrierID))
      (r1.map BarrierSeg.barrierID) 0 seg.barrierID
      (r2.map BarrierSeg.barrierID) (by simp) hside1 hside2
    have heq2 : ((List.enumFrom 0 (r1.map BarrierSeg.barrierID ++
        seg.barrierID :: r2.map BarrierSeg.barrierID)).filter
          fun pr => decide (pr.2 = seg.barrierID)) =
        [(0 + (r1.map BarrierSeg.barrierID).length, seg.barrierID)] := heq
    rw [heq2]
    rw [show 0 + (r1.map BarrierSeg.barrierID).length = r1.length by simp]
    rfl

/-- C1: every interior-split barrier yields exactly one barrier-join row;
its two sides are consecutive freshly numbered sub-segments of the split
line, both present in the output flowline table, and the output join table
contains the direct join between them. -/
theorem C1_interior_split (fls : List Flowline) (bars : List Barrier)
    (joins : List Join) (nid : Nat) (res : CutResult)
    (hfl : (fls.map Flowline.lineID).Nodup)
    (hb : (bars.map Barrier.barrierID).Nodup)
    (hrun : cut_flowlines fls bars joins (some nid) = some res)
    (b : Barrier) (hbm : b ∈ bars) (f : Flowline) (hf : f ∈ fls)
    (hlink : b.lineID = f.lineID) (hint : InteriorSplit f b) :
    ∃ u d,
      res.barrier_joins.filter (fun row => row.barrierID = b.barrierID) =
        [{ barrierID := b.barrierID, upstream_id := some u,
           downstream_id := some d }] ∧
      nid ≤ u ∧ d = u + 1 ∧
      u ∈ res.flowlines.map Flowline.lineID ∧
      d ∈ res.flowlines.map Flowline.lineID ∧
      ∃ j ∈ res.joins, j.upstream_id = u ∧ j.downstream_id = d := by
  rcases cut_flowlines_some fls bars joins nid res hrun with ⟨pairs, hcut, rfl⟩
  have hsegf := segs_filter_barrier fls bars f b hfl hb hf hbm hlink
  have hsegf2 : (mkBarrierSegments fls bars).filter
      (fun r => r.barrierID = (mkSeg f b).barrierID) = [mkSeg f b] := hsegf
  have hupF : onUpstream (mkSeg f b) = false := by
    unfold onUpstream mkSeg
    exact decide_eq_false (by have := hint.1; unfold InteriorSplit at hint; linarith [hint.1])
  have hdownF : onDownstream (mkSeg f b) = false := by
    unfold onDownstream mkSeg
    exact decide_eq_false (by have := hint.2; unfold InteriorSplit at hint; linarith [hint.2])
  have hss : (splitSegs fls bars).filter
      (fun r => r.barrierID = (mkSeg f b).barrierID) = [mkSeg f b] := by
    unfold splitSegs
    have hperm := (sortBy_perm splitLt ((mkBarrierSegments fls bars).filter
      fun r => ¬ (onUpstream r ∨ onDownstream r))).filter
        (fun r => r.barrierID = (mkSeg f b).barrierID)
    have hinner : (((mkBarrierSegments fls bars).filter
        fun r => ¬ (onUpstream r ∨ onDownstream r)).filter
          (fun r => r.barrierID = (mkSeg f b).barrierID)) = [mkSeg f b] := by
      rw [List.filter_comm, hsegf2,
        List.filter_cons_of_pos (by simp [hupF, hdownF])]
      rfl
    rw [hinner] at hperm
    exact List.perm_singleton.mp hperm
  have hsegmem : mkSeg f b ∈ splitSegs fls bars := by
    apply List.mem_of_mem_filter
      (p := fun r => r.barrierID = (mkSeg f b).barrierID)
    rw [hss]
    exact List.mem_singleton.mpr rfl
  rcases cutAll_some _ _ hcut with ⟨hpmap, hpcut⟩
  have hgmap : (groupSplits (splitSegs fls bars)).map GroupRow.lineID =
      ((splitSegs fls bars).map BarrierSeg.lineID).dedup := by
    unfold groupSplits
    rw [List.map_map]
    have hfn : (GroupRow.lineID ∘ fun k =>
        mkGroup k ((splitSegs fls bars).filter fun r => r.lineID = k)) =
        fun k => k := rfl
    rw [hfn, List.map_id']
  have hndpairs : (pairs.map fun p => p.1.lineID).Nodup := by
    have hcm : pairs.map (fun p => p.1.lineID) =
        (pairs.map Prod.fst).map GroupRow.lineID := by
      rw [List.map_map]
      rfl
    rw [hcm, hpmap, hgmap]
    exact List.nodup_dedup _
  have hglmem : mkGroup (mkSeg f b).lineID ((splitSegs fls bars).filter
      fun r => r.lineID = (mkSeg f b).lineID) ∈
      groupSplits (splitSegs fls bars) := by
    unfold groupSplits
    exact List.mem_map_of_mem _
      (List.mem_dedup.mpr (List.mem_map_of_mem BarrierSeg.lineID hsegmem))
  rw [← hpmap] at hglmem
  rcases List.mem_map.mp hglmem with ⟨p, hp, hpfst⟩
  have hpair : (mkGroup (mkSeg f b).lineID ((splitSegs fls bars).filter
      fun r => r.lineID = (mkSeg f b).lineID), p.2) ∈ pairs := by
    have hpe : p = (mkGroup (mkSeg f b).lineID ((splitSegs fls bars).filter
        fun r => r.lineID = (mkSeg f b).lineID), p.2) := by
      rw [← hpfst]
    rw [← hpe]
    exact hp
  have hcutl := hpcut _ hpair
  have hlen : p.2.length = ((splitSegs fls bars).filter
      fun r => r.lineID = (mkSeg f b).lineID).length + 1 := by
    have h0 := cutPoints_length
      ((mkGroup (mkSeg f b).lineID ((splitSegs fls bars).filter
        fun r => r.lineID = (mkSeg f b).lineID)).geometry_barriers) []
      ((mkGroup (mkSeg f b).lineID ((splitSegs fls bars).filter
        fun r => r.lineID = (mkSeg f b).lineID)).geometry) p.2 hcutl
    have hgb : (mkGroup (mkSeg f b).lineID ((splitSegs fls bars).filter
        fun r => r.lineID = (mkSeg f b).lineID)).geometry_barriers.length =
        ((splitSegs fls bars).filter
          fun r => r.lineID = (mkSeg f b).lineID).length := by
      unfold mkGroup
      rw [List.length_map]
    rw [hgb] at h0
    rw [h0]
    simp
  rcases mkNewJoins_filter_interior (splitSegs fls bars)
      (numberSegs nid pairs) (mkSeg f b) hss with ⟨i, hiLT, hnjf⟩
  rcases numberSegs_block pairs nid _ p.2 hndpairs hpair with ⟨m, hblk⟩
  have hj1 : i < p.2.length := by omega
  have hj2 : i + 1 < p.2.length := by omega
  have hjlt : i < p.2.length - 1 := by omega
  have hsiNew : blkSeg (mkGroup (mkSeg f b).lineID ((splitSegs fls bars).filter
      fun r => r.lineID = (mkSeg f b).lineID)) p.2 m i hj1 ∈
      numberSegs nid pairs := by
    have hmem := List.getElem?_mem (blkOf_getElem (mkGroup (mkSeg f b).lineID
      ((splitSegs fls bars).filter fun r => r.lineID = (mkSeg f b).lineID))
      p.2 m i hj1)
    rw [← hblk] at hmem
    exact List.mem_of_mem_filter hmem
  have hsi1New : blkSeg (mkGroup (mkSeg f b).lineID ((splitSegs fls bars).filter
      fun r => r.lineID = (mkSeg f b).lineID)) p.2 m (i + 1) hj2 ∈
      numberSegs nid pairs := by
    have hmem := List.getElem?_mem (blkOf_getElem (mkGroup (mkSeg f b).lineID
      ((splitSegs fls bars).filter fun r => r.lineID = (mkSeg f b).lineID))
      p.2 m (i + 1) hj2)
    rw [← hblk] at hmem
    exact List.mem_of_mem_filter hmem
  have hnotlast : ¬ (m + i ∈ lastVals (numberSegs nid pairs)) :=
    not_mem_lastVals pairs nid hndpairs _ p.2 m hpair hblk i hj1 hjlt
  have hnotfirst : ¬ (m + (i + 1) ∈ firstVals (numberSegs nid pairs)) :=
    not_mem_firstVals pairs nid hndpairs _ p.2 m hpair hblk (i + 1) hj2
      (by omega)
  have hfindU : ((upstreamSide (numberSegs nid pairs)).find? fun s =>
      s.origLineID = (mkSeg f b).lineID ∧ s.i = i) =
      some (blkSeg (mkGroup (mkSeg f b).lineID ((splitSegs fls bars).filter
        fun r => r.lineID = (mkSeg f b).lineID)) p.2 m i hj1) := by
    apply find?_eq_some_of_unique
    · exact List.mem_filter.mpr ⟨hsiNew, decide_eq_true hnotlast⟩
    · exact decide_eq_true ⟨rfl, rfl⟩
    · intro x hx hpx
      have hx2 : x.origLineID = (mkSeg f b).lineID ∧ x.i = i :=
        of_decide_eq_true hpx
      have hxblk : x ∈ blkOf (mkGroup (mkSeg f b).lineID
          ((splitSegs fls bars).filter
            fun r => r.lineID = (mkSeg f b).lineID)) p.2 m := by
        rw [← hblk]
        exact List.mem_filter.mpr
          ⟨List.mem_of_mem_filter hx, decide_eq_true hx2.1⟩
      exact blkOf_elem_unique _ p.2 m i hj1 x hxblk hx2.2
  have h0len : 0 < p.2.length := by omega
  have hfv : m + 0 ∈ firstVals (numberSegs nid pairs) := by
    unfold firstVals
    apply List.mem_filterMap.mpr
    refine ⟨(mkSeg f b).lineID, ?_, ?_⟩
    · apply List.mem_dedup.mpr
      apply List.mem_map.mpr
      exact ⟨_, hsiNew, rfl⟩
    · unfold firstLookup
      have hblk2 : ((numberSegs nid pairs).filter
          fun s => s.origLineID = (mkSeg f b).lineID) =
          blkOf (mkGroup (mkSeg f b).lineID ((splitSegs fls bars).filter
            fun r => r.lineID = (mkSeg f b).lineID)) p.2 m := hblk
      rw [hblk2, List.head?_eq_getElem?, blkOf_getElem _ p.2 m 0 h0len]
      rfl
  have hfindD : ((downstreamSide (numberSegs nid pairs)).find? fun s =>
      s.origLineID = (mkSeg f b).lineID ∧ s.i - 1 = i) =
      some (blkSeg (mkGroup (mkSeg f b).lineID ((splitSegs fls bars).filter
        fun r => r.lineID = (mkSeg f b).lineID)) p.2 m (i + 1) hj2) := by
    apply find?_eq_some_of_unique
    · exact List.mem_filter.mpr ⟨hsi1New, decide_eq_true hnotfirst⟩
    · exact decide_eq_true ⟨rfl, rfl⟩
    · intro x hx hpx
      have hx2 : x.origLineID = (mkSeg f b).lineID ∧ x.i - 1 = i :=
        of_decide_eq_true hpx
      have hxblk : x ∈ blkOf (mkGroup (mkSeg f b).lineID
          ((splitSegs fls bars).filter
            fun r => r.lineID = (mkSeg f b).lineID)) p.2 m := by
        rw [← hblk]
        exact List.mem_filter.mpr
          ⟨List.mem_of_mem_filter hx, decide_eq_true hx2.1⟩
      have hxi : x.i ≠ 0 := by
        intro hc
        have hx0 : x = blkSeg (mkGroup (mkSeg f b).lineID
            ((splitSegs fls bars).filter
              fun r => r.lineID = (mkSeg f b).lineID)) p.2 m 0 h0len :=
          blkOf_elem_unique _ p.2 m 0 h0len x hxblk hc
        have hxfilter := (List.mem_filter.mp hx).2
        rw [hx0] at hxfilter
        have := of_decide_eq_true hxfilter
        exact this hfv
      have hxi2 : x.i = i + 1 := by omega
      exact blkOf_elem_unique _ p.2 m (i + 1) hj2 x hxblk hxi2
  have hu : (njRowFor (splitSegs fls bars) (numberSegs nid pairs)
      (mkSeg f b) i).upstream_id = m + i := by
    unfold njRowFor
    rw [hfindU]
    rfl
  have hd : (njRowFor (splitSegs fls bars) (numberSegs nid pairs)
      (mkSeg f b) i).downstream_id = m + (i + 1) := by
    unfold njRowFor
    rw [hfindD]
    rfl
  refine ⟨m + i, m + (i + 1), ?_, ?_, rfl, ?_, ?_, ?_⟩
  · have hbjeq : (cutAssemble fls bars joins nid pairs).barrier_joins =
        (upstreamBarrierJoins (mkBarrierSegments fls bars) joins ++
          downstreamBarrierJoins (mkBarrierSegments fls bars) joins) ++
          (mkNewJoins (groupSplits (splitSegs fls bars))
            (numberSegs nid pairs)).map (fun r =>
              { barrierID := r.barrierID, upstream_id := some r.upstream_id,
                downstream_id := some r.downstream_id }) := rfl
    rw [hbjeq, List.filter_append]
    have hempty : ((upstreamBarrierJoins (mkBarrierSegments fls bars) joins ++
        downstreamBarrierJoins (mkBarrierSegments fls bars) joins).filter
          fun row => row.barrierID = b.barrierID) = [] :=
      interiorJoins_bj0_empty (mkBarrierSegments fls bars) joins
        (mkSeg f b) hsegf hupF hdownF
    rw [hempty, List.nil_append, List.filter_map]
    have hcomp : ((fun row : BJRow => decide (row.barrierID = b.barrierID)) ∘
        fun r : NewJoinRow =>
          ({ barrierID := r.barrierID, upstream_id := some r.upstream_id,
             downstream_id := some r.downstream_id } : BJRow)) =
        fun r : NewJoinRow => decide (r.barrierID = (mkSeg f b).barrierID) :=
      rfl
    rw [hcomp, hnjf]
    simp only [List.map_cons, List.map_nil, njRowFor, hfindU, hfindD,
      Option.map_some', Option.getD_some]
    rfl
  · have hrange := numberSegs_lineIDs pairs nid
    have hmemr : m + i ∈ (numberSegs nid pairs).map NewSeg.lineID := by
      apply List.mem_map.mpr
      exact ⟨_, hsiNew, rfl⟩
    rw [hrange] at hmemr
    exact (List.mem_range'_1.mp hmemr).1
  · have hfleq : (cutAssemble fls bars joins nid pairs).flowlines =
        (fls.filter fun fl => ¬ (fl.lineID ∈
          (splitSegs fls bars).map BarrierSeg.lineID)) ++
          prepNewFlowlines fls (numberSegs nid pairs) := rfl
    rw [hfleq, List.map_append]
    apply List.mem_append_right
    apply List.mem_map.mpr
    refine ⟨_, List.mem_map_of_mem _ hsiNew, rfl⟩
  · have hfleq : (cutAssemble fls bars joins nid pairs).flowlines =
        (fls.filter fun fl => ¬ (fl.lineID ∈
          (splitSegs fls bars).map BarrierSeg.lineID)) ++
          prepNewFlowlines fls (numberSegs nid pairs) := rfl
    rw [hfleq, List.map_append]
    apply List.mem_append_right
    apply List.mem_map.mpr
    refine ⟨_, List.mem_map_of_mem _ hsi1New, rfl⟩
  · have hnjmem : njRowFor (splitSegs fls bars) (numberSegs nid pairs)
        (mkSeg f b) i ∈ mkNewJoins (groupSplits (splitSegs fls bars))
          (numberSegs nid pairs) := by
      apply List.mem_of_mem_filter
        (p := fun r => r.barrierID = (mkSeg f b).barrierID)
      rw [hnjf]
      exact List.mem_singleton.mpr rfl
    have hjeq : (cutAssemble fls bars joins nid pairs).joins =
        sortBy joinLt
          (updateJoins joins (numberSegs nid pairs) ++
            (mkNewJoins (groupSplits (splitSegs fls bars))
              (numberSegs nid pairs)).map fun r =>
              { upstream_id := r.upstream_id, downstream_id := r.downstream_id,
                upstream := r.upstream, downstream := r.downstream,
                jtype := none }) := rfl
    refine ⟨(fun r : NewJoinRow =>
        ({ upstream_id := r.upstream_id, downstream_id := r.downstream_id,
           upstream := r.upstream, downstream := r.downstream,
           jtype := none } : Join))
        (njRowFor (splitSegs fls bars) (numberSegs nid pairs)
          (mkSeg f b) i), ?_, ?_, ?_⟩
    · rw [hjeq]
      apply (mem_sortBy _ _ _).mpr
      apply List.mem_append_right
      exact List.mem_map_of_mem _ hnjmem
    · exact hu
    · exact hd

theorem C1_witness :
    InteriorSplit
      { lineID := 1, NHDPlusID := 555, sizeclass := "2", streamorder := 1,
        length := 100, sinuosity := 1, geometry := [0, 100] }
      { barrierID := 10, lineID := 1, geometry := 40 } ∧
    ∃ u d,
      exCutResult.barrier_joins.filter (fun row => row.barrierID = 10) =
        [{ barrierID := 10, upstream_id := some u,
           downstream_id := some d }] ∧
      1001 ≤ u ∧ d = u + 1 ∧
      u ∈ exCutResult.flowlines.map Flowline.lineID ∧
      d ∈ exCutResult.flowlines.map Flowline.lineID ∧
      ∃ j ∈ exCutResult.joins, j.upstream_id = u ∧ j.downstream_id = d := by
  have hint : InteriorSplit
      { lineID := 1, NHDPlusID := 555, sizeclass := "2", streamorder := 1,
        length := 100, sinuosity := 1, geometry := [0, 100] }
      { barrierID := 10, lineID := 1, geometry := 40 } := by
    constructor <;>
      norm_num [project, projCandidates, firstMinFst, clampQ, lineLength, EPS]
  refine ⟨hint, ?_⟩
  exact C1_interior_split exFlowlines exBarriers exJoins 1001 exCutResult
    (by decide) (by decide) cut_flowlines_exEval
    { barrierID := 10, lineID := 1, geometry := 40 } (by decide)
    { lineID := 1, NHDPlusID := 555, sizeclass := "2", streamorder := 1,
      length := 100, sinuosity := 1, geometry := [0, 100] } (by decide)
    rfl hint

/-! ## Claim C4: the snapper keeps the nearest line, ties to lowest ordinal -/

theorem foldl_min_le_init : ∀ (l : List ℚ) (a : ℚ), l.foldl min a ≤ a
  | [], a => le_refl a
  | x :: xs, a => le_trans (foldl_min_le_init xs (min a x)) (min_le_left a x)

theorem foldl_min_mono :
    ∀ (l : List ℚ) (a b : ℚ), a ≤ b → l.foldl min a ≤ l.foldl min b
  | [], _, _, h => h
  | x :: xs, _, _, h => foldl_min_mono xs _ _ (min_le_min h (le_refl x))

theorem le_foldl_max_init : ∀ (l : List ℚ) (a : ℚ), a ≤ l.foldl max a
  | [], a => le_refl a
  | x :: xs, a => le_trans (le_max_left a x) (le_foldl_max_init xs (max a x))

theorem foldl_max_mono :
    ∀ (l : List ℚ) (a b : ℚ), a ≤ b → l.foldl max a ≤ l.foldl max b
  | [], _, _, h => h
  | x :: xs, _, _, h => foldl_max_mono xs _ _ (max_le_max h (le_refl x))

/-- Every candidate distance of `projCandidates` is realised by a point of
the line lying inside the line's bounding interval. -/
theorem projCandidates_bound :
    ∀ (l : Line) (p acc : ℚ) (pr : ℚ × ℚ), pr ∈ projCandidates l p acc →
      ∃ c, pr.1 = |p - c| ∧ (lineBounds l).1 ≤ c ∧ c ≤ (lineBounds l).2
  | a :: b :: rest, p, acc, pr, hpr => by
      simp only [projCandidates, List.mem_cons] at hpr
      rcases hpr with heq | htail
      · refine ⟨clampQ p (min a b) (max a b), ?_, ?_, ?_⟩
        · rw [heq]
        · show (lineBounds (a :: b :: rest)).1 ≤ _
          have h1 : ((b :: rest).foldl min a) ≤ min a b :=
            foldl_min_le_init rest (min a b)
          exact le_trans h1 (le_max_left _ _)
        · show _ ≤ (lineBounds (a :: b :: rest)).2
          have h1 : max a b ≤ ((b :: rest).foldl max a) :=
            le_foldl_max_init rest (max a b)
          refine le_trans ?_ h1
          exact max_le (le_trans (min_le_left a b) (le_max_left a b))
            (min_le_left _ _)
      · obtain ⟨c, hc1, hc2, hc3⟩ :=
          projCandidates_bound (b :: rest) p (acc + |b - a|) pr htail
        refine ⟨c, hc1, ?_, ?_⟩
        · refine le_trans ?_ hc2
          show ((b :: rest).foldl min a) ≤ (rest.foldl min b)
          exact le_trans
            (foldl_min_mono rest (min a b) b (min_le_right a b)) (le_refl _)
        · refine le_trans hc3 ?_
          show (rest.foldl max b) ≤ ((b :: rest).foldl max a)
          exact le_trans (le_refl _)
            (foldl_max_mono rest b (max a b) (le_max_right a b))

theorem firstMinFst_mem :
    ∀ (xs : List (ℚ × ℚ)) (m : ℚ × ℚ), firstMinFst xs = some m → m ∈ xs
  | x :: xs, m, h => by
      have h0 : (match firstMinFst xs with
        | none => some x
        | some mq => if mq.1 < x.1 then some mq else some x) = some m := h
      cases h' : firstMinFst xs with
      | none =>
          rw [h'] at h0
          have h2 : x = m := Option.some.inj h0
          subst h2
          exact List.mem_cons_self x xs
      | some m' =>
          rw [h'] at h0
          have h1 : (if m'.1 < x.1 then some m' else some x) = some m := h0
          by_cases hlt : m'.1 < x.1
          · rw [if_pos hlt] at h1
            have h2 : m' = m := Option.some.inj h1
            subst h2
            exact List.mem_cons_of_mem x (firstMinFst_mem xs m' h')
          · rw [if_neg hlt] at h1
            have h2 : x = m := Option.some.inj h1
            subst h2
            exact List.mem_cons_self x xs

theorem firstMinFst_cons_isSome (x : ℚ × ℚ) (xs : List (ℚ × ℚ)) :
    ∃ m, firstMinFst (x :: xs) = some m := by
  show ∃ m, (match firstMinFst xs with
    | none => some x
    | some mq => if mq.1 < x.1 then some mq else some x) = some m
  cases firstMinFst xs with
  | none => exact ⟨x, rfl⟩
  | some m' =>
      by_cases hlt : m'.1 < x.1
      · refine ⟨m', ?_⟩
        show (if m'.1 < x.1 then some m' else some x) = some m'
        rw [if_pos hlt]
      · refine ⟨x, ?_⟩
        show (if m'.1 < x.1 then some m' else some x) = some x
        rw [if_neg hlt]

/-- Bounding-box completeness: if the point is within `tol` of a line with
at least two vertices, the line's bounding interval intersects the query
window `[p - tol, p + tol]`, so the spatial index reports the line. -/
theorem distToLine_bbox (l : Line) (hl : 2 ≤ l.length) (p tol : ℚ)
    (h : distToLine l p ≤ tol) :
    (lineBounds l).1 ≤ p + tol ∧ p - tol ≤ (lineBounds l).2 := by
  match l, hl with
  | a :: b :: rest, _ =>
    obtain ⟨m, hm⟩ := firstMinFst_cons_isSome
      (|p - clampQ p (min a b) (max a b)|, 0 + |clampQ p (min a b) (max a b) - a|)
      (projCandidates (b :: rest) p (0 + |b - a|))
    have hm' : firstMinFst (projCandidates (a :: b :: rest) p 0) = some m := hm
    have hdist : distToLine (a :: b :: rest) p = m.1 := by
      unfold distToLine
      rw [hm']
      rfl
    obtain ⟨c, hc1, hc2, hc3⟩ := projCandidates_bound (a :: b :: rest) p 0 m
      (firstMinFst_mem _ m hm')
    rw [hdist, hc1] at h
    have habs := abs_le.mp h
    constructor
    · linarith [hc2, habs.1]
    · linarith [hc3, habs.2]

/-- The candidate row that `snapCandidates` builds for point index `k`,
line ordinal `j`. -/
def mkCandOf (k j : Nat) (l : SnapLine) (p : Pt) : SnapCand :=
  { pt_idx := k, line_i := j, lineID := l.lineID, NHDPlusID := l.NHDPlusID,
    geometry := l.geometry, point := p, snap_dist := distToLine l.geometry p }

/-- The `tmp` frame after the tolerance filter (lines.py line 114). -/
def snapTmp (points : List Pt) (lines : List SnapLine) (tol : ℚ) :
    List SnapCand :=
  (snapCandidates points lines tol).filter fun c => c.snap_dist ≤ tol

/-- The `tmp` frame after `sort_values(by=["pt_idx", "snap_dist"])`. -/
def snapSorted (points : List Pt) (lines : List SnapLine) (tol : ℚ) :
    List SnapCand :=
  sortBy candLt (snapTmp points lines tol)

/-- The `closest` frame computed from a sorted candidate frame: first row
and group size per point index (`groupby("pt_idx").first()` and `.size()`,
lines.py lines 117-120). -/
def snapClosestOf (sorted : List SnapCand) : List (SnapCand × Nat) :=
  ((sorted.map SnapCand.pt_idx).dedup).filterMap
    fun kk =>
      match sorted.filter fun c => c.pt_idx = kk with
      | [] => none
      | c :: cs => some (c, cs.length + 1)

/-- The per-point output row builder of `snap_to_line` (the final join),
computed from a sorted candidate frame. -/
def snapFOf (sorted : List SnapCand) : Nat × Pt → Option SnapRow :=
  fun pt =>
    ((snapClosestOf sorted).find? fun pr => pr.1.pt_idx = pt.1).map
      fun pr =>
        { pt_idx := pt.1, lineID := pr.1.lineID, NHDPlusID := pr.1.NHDPlusID,
          snap_dist := pr.1.snap_dist, nearby := pr.2,
          geometry :=
            interpolate pr.1.geometry (project pr.1.geometry pr.1.point) }

/-- The tail of `snap_to_line` downstream of the sort (lines.py lines
117-133), as a function of the sorted candidate frame it receives. -/
def snapOutputOf (points : List Pt) (sorted : List SnapCand) : List SnapRow :=
  points.enum.filterMap (snapFOf sorted)

theorem snap_to_line_eq (points : List Pt) (lines : List SnapLine) (tol : ℚ) :
    snap_to_line points lines tol =
      snapOutputOf points (snapSorted points lines tol) := rfl

/-- What `tmp.sort_values(by=["pt_idx", "snap_dist"])` (lines.py line 114)
guarantees about its output for any sort kind: a permutation of the frame
that is sorted by the key `(pt_idx, snap_dist)`.  pandas' default
`kind="quicksort"` promises nothing more - in particular not stability, so
the relative order of rows with equal keys is not determined. -/
def validCandSort (tmp sorted : List SnapCand) : Prop :=
  sorted.Perm tmp ∧ sorted.Pairwise fun a b => candLt b a = false

/-- Any in-tolerance (point, line) pair survives the spatial index and the
tolerance filter: its candidate row is in the filtered `tmp` frame. -/
theorem cand_mem_tmp (points : List Pt) (lines : List SnapLine) (tol : ℚ)
    (k j : Nat) (p : Pt) (l : SnapLine)
    (hk : points[k]? = some p) (hj : lines[j]? = some l)
    (hgeom : 2 ≤ l.geometry.length)
    (hd : distToLine l.geometry p ≤ tol) :
    mkCandOf k j l p ∈ snapTmp points lines tol := by
  apply List.mem_filter.mpr
  constructor
  · unfold snapCandidates
    apply List.mem_flatMap.mpr
    refine ⟨(k, p), List.mem_enum_iff_getElem?.mpr hk, ?_⟩
    apply List.mem_map.mpr
    refine ⟨(j, l), ?_, rfl⟩
    unfold sindexHits
    apply List.mem_filter.mpr
    refine ⟨List.mem_enum_iff_getElem?.mpr hj, ?_⟩
    exact decide_eq_true (distToLine_bbox l.geometry hgeom p tol hd)
  · exact decide_eq_true hd

/-- Every candidate row comes from an actual (point, line ordinal) pair. -/
theorem snapCandidates_src (points : List Pt) (lines : List SnapLine)
    (tol : ℚ) (c : SnapCand) (hc : c ∈ snapCandidates points lines tol) :
    ∃ l, lines[c.line_i]? = some l ∧ points[c.pt_idx]? = some c.point ∧
      c = mkCandOf c.pt_idx c.line_i l c.point := by
  unfold snapCandidates at hc
  rcases List.mem_flatMap.mp hc with ⟨pt, hpt, hcm⟩
  rcases List.mem_map.mp hcm with ⟨pr, hpr, hceq⟩
  have hpr2 : pr ∈ lines.enum := List.mem_of_mem_filter hpr
  refine ⟨pr.2, ?_, ?_, ?_⟩
  · rw [← hceq]
    exact List.mem_enum_iff_getElem?.mp hpr2
  · rw [← hceq]
    exact List.mem_enum_iff_getElem?.mp hpt
  · rw [← hceq]
    rfl

theorem enum_pairwise_fst (l : List α) :
    l.enum.Pairwise fun u v => u.1 < v.1 := by
  have h := List.pairwise_lt_range l.length
  rw [← List.enum_map_fst l] at h
  exact List.pairwise_map.mp h

theorem sindexHits_pairwise (lines : List SnapLine) (p tol : ℚ) :
    (sindexHits lines p tol).Pairwise fun u v => u.1 < v.1 :=
  (enum_pairwise_fst lines).sublist (List.filter_sublist _)

/-- Candidate rows are emitted point-major, and within one point in strictly
ascending line ordinal (the order of the spatial-index hits). -/
theorem snapCandidates_pairwise (points : List Pt) (lines : List SnapLine)
    (tol : ℚ) :
    (snapCandidates points lines tol).Pairwise
      fun a b => a.pt_idx = b.pt_idx → a.line_i < b.line_i := by
  unfold snapCandidates
  have haux : ∀ pl : List (Nat × Pt),
      pl.Pairwise (fun u v => u.1 ≠ v.1) →
      (pl.flatMap fun pt => (sindexHits lines pt.2 tol).map fun pr =>
        { pt_idx := pt.1, line_i := pr.1, lineID := pr.2.lineID,
          NHDPlusID := pr.2.NHDPlusID, geometry := pr.2.geometry,
          point := pt.2,
          snap_dist := distToLine pr.2.geometry pt.2 : SnapCand }).Pairwise
        fun a b => a.pt_idx = b.pt_idx → a.line_i < b.line_i := by
    intro pl hpl
    induction pl with
    | nil => exact List.Pairwise.nil
    | cons pt rest ih =>
        rcases List.pairwise_cons.mp hpl with ⟨hhead, htail⟩
        rw [List.flatMap_cons]
        apply List.pairwise_append.mpr
        refine ⟨?_, ih htail, ?_⟩
        · apply List.pairwise_map.mpr
          refine List.Pairwise.imp ?_ (sindexHits_pairwise lines pt.2 tol)
          intro u v h _
          exact h
        · intro a ha b hb
          rcases List.mem_map.mp ha with ⟨pra, _, hae⟩
          rcases List.mem_flatMap.mp hb with ⟨q, hq, hbq⟩
          rcases List.mem_map.mp hbq with ⟨prb, _, hbe⟩
          intro heq
          exfalso
          apply hhead q hq
          rw [← hae, ← hbe] at heq
          exact heq
  apply haux
  exact (enum_pairwise_fst points).imp fun h => Nat.ne_of_lt h

/-- `insertBy` splits the list at the insertion point. -/
theorem insertBy_eq_takeDrop (lt : α → α → Bool) (x : α) :
    ∀ l : List α, insertBy lt x l =
      l.takeWhile (fun y => lt y x) ++ x :: l.dropWhile (fun y => lt y x)
  | [] => rfl
  | y :: ys => by
      rw [insertBy, List.takeWhile_cons, List.dropWhile_cons]
      by_cases h : lt y x = true
      · simp only [h, if_true]
        rw [insertBy_eq_takeDrop lt x ys]
        rfl
      · simp only [h, if_false]
        rw [Bool.not_eq_true] at h
        simp [h]

/-- Stability of the insertion sort: the subsequence of rows that are
mutually incomparable under `lt` is preserved in order. -/
theorem sortBy_filter_stable (lt : α → α → Bool) (p : α → Bool)
    (hmut : ∀ a b, p a = true → p b = true → lt a b = false) :
    ∀ l : List α, (sortBy lt l).filter p = l.filter p
  | [] => rfl
  | x :: xs => by
      rw [sortBy, insertBy_eq_takeDrop, List.filter_append, List.filter_cons]
      by_cases hx : p x = true
      · have htw : ((sortBy lt xs).takeWhile
            (fun y => lt y x)).filter p = [] := by
          rw [List.filter_eq_nil_iff]
          intro a ha hpa
          have h1 := List.mem_takeWhile_imp ha
          have h2 := hmut a x hpa hx
          rw [h2] at h1
          exact Bool.false_ne_true h1
        have hdw : ((sortBy lt xs).dropWhile
            (fun y => lt y x)).filter p = (sortBy lt xs).filter p := by
          conv_rhs => rw [← List.takeWhile_append_dropWhile
            (fun y => lt y x) (sortBy lt xs)]
          rw [List.filter_append, htw, List.nil_append]
        rw [htw, if_pos hx, List.nil_append, hdw,
          sortBy_filter_stable lt p hmut xs, List.filter_cons, if_pos hx]
      · rw [if_neg hx]
        have hsplit : ((sortBy lt xs).takeWhile (fun y => lt y x)).filter p ++
            ((sortBy lt xs).dropWhile (fun y => lt y x)).filter p =
            (sortBy lt xs).filter p := by
          rw [← List.filter_append, List.takeWhile_append_dropWhile]
        rw [hsplit, sortBy_filter_stable lt p hmut xs, List.filter_cons,
          if_neg hx]

theorem mem_insertBy (lt : α → α → Bool) (x : α) (l : List α) (z : α) :
    z ∈ insertBy lt x l ↔ z = x ∨ z ∈ l := by
  rw [(insertBy_perm lt x l).mem_iff]
  exact List.mem_cons

/-- Insertion preserves the sortedness invariant, given asymmetry and
negative transitivity of the comparator. -/
theorem insertBy_pairwiseR (lt : α → α → Bool)
    (hasym : ∀ a b, lt a b = true → lt b a = false)
    (htr : ∀ a b c, lt b a = false → lt c b = false → lt c a = false)
    (x : α) : ∀ l : List α, l.Pairwise (fun a b => lt b a = false) →
      (insertBy lt x l).Pairwise (fun a b => lt b a = false)
  | [], _ => List.pairwise_singleton _ _
  | y :: ys, h => by
      rcases List.pairwise_cons.mp h with ⟨hy, hys⟩
      by_cases hlt : lt y x = true
      · rw [insertBy, if_pos hlt]
        apply List.pairwise_cons.mpr
        refine ⟨?_, insertBy_pairwiseR lt hasym htr x ys hys⟩
        intro z hz
        rcases (mem_insertBy lt x ys z).mp hz with rfl | hzys
        · exact hasym y z hlt
        · exact hy z hzys
      · rw [insertBy, if_neg hlt]
        rw [Bool.not_eq_true] at hlt
        apply List.pairwise_cons.mpr
        constructor
        · intro z hz
          rcases List.mem_cons.mp hz with rfl | hzys
          · exact hlt
          · exact htr x y z hlt (hy z hzys)
        · exact h

theorem sortBy_pairwiseR (lt : α → α → Bool)
    (hasym : ∀ a b, lt a b = true → lt b a = false)
    (htr : ∀ a b c, lt b a = false → lt c b = false → lt c a = false) :
    ∀ l : List α, (sortBy lt l).Pairwise (fun a b => lt b a = false)
  | [] => List.Pairwise.nil
  | x :: xs =>
      insertBy_pairwiseR lt hasym htr x (sortBy lt xs)
        (sortBy_pairwiseR lt hasym htr xs)

theorem candLt_asymm (a b : SnapCand) :
    candLt a b = true → candLt b a = false := by
  unfold candLt
  simp only [decide_eq_true_eq, decide_eq_false_iff_not]
  rintro (h | ⟨h1, h2⟩) <;> rintro (h' | ⟨h1', h2'⟩)
  · omega
  · omega
  · omega
  · linarith

/-- No output row is tagged with a point index absent from the frame. -/
theorem filterMap_tag_nil (F : Nat × Pt → Option SnapRow)
    (htag : ∀ e r, F e = some r → r.pt_idx = e.1) (k : Nat) :
    ∀ l : List (Nat × Pt), (∀ e ∈ l, e.1 ≠ k) →
      (l.filterMap F).filter (fun r => r.pt_idx = k) = []
  | [], _ => rfl
  | e :: es, h => by
      rw [List.filterMap_cons]
      cases hF : F e with
      | none =>
          exact filterMap_tag_nil F htag k es
            fun e' he' => h e' (List.mem_cons_of_mem _ he')
      | some r =>
          rw [List.filter_cons]
          have hne : ¬ (r.pt_idx = k) := by
            rw [htag e r hF]
            exact h e (List.mem_cons_self _ _)
          rw [if_neg (by simpa using hne)]
          exact filterMap_tag_nil F htag k es
            fun e' he' => h e' (List.mem_cons_of_mem _ he')

/-- With distinct point indexes, the rows tagged `k` in the final join are
exactly the contribution of the `k`-th point. -/
theorem filterMap_tag_single (F : Nat × Pt → Option SnapRow)
    (htag : ∀ e r, F e = some r → r.pt_idx = e.1) (k : Nat) (p : Pt) :
    ∀ l : List (Nat × Pt), (l.map Prod.fst).Nodup → (k, p) ∈ l →
      (l.filterMap F).filter (fun r => r.pt_idx = k) = (F (k, p)).toList
  | e :: es, hnd, hmem => by
      rw [List.map_cons] at hnd
      rcases List.nodup_cons.mp hnd with ⟨hnotin, hnd'⟩
      rcases List.mem_cons.mp hmem with heq | hmem'
      · rw [← heq] at hnotin ⊢
        have hknot : ∀ e' ∈ es, e'.1 ≠ k := by
          intro e' he' hc
          have hm : e'.1 ∈ es.map Prod.fst := List.mem_map_of_mem Prod.fst he'
          rw [hc] at hm
          exact hnotin hm
        rw [List.filterMap_cons]
        cases hF : F (k, p) with
        | none => exact filterMap_tag_nil F htag k es hknot
        | some r =>
            rw [List.filter_cons]
            have hrk : r.pt_idx = k := htag _ _ hF
            rw [if_pos (by simpa using hrk)]
            rw [filterMap_tag_nil F htag k es hknot]
            rfl
      · have hek : e.1 ≠ k := by
          intro hc
          have hm : (k, p).1 ∈ es.map Prod.fst :=
            List.mem_map_of_mem Prod.fst hmem'
          rw [← hc] at hm
          exact hnotin hm
        rw [List.filterMap_cons]
        cases hF : F e with
        | none => exact filterMap_tag_single F htag k p es hnd' hmem'
        | some r =>
            rw [List.filter_cons]
            have hne : ¬ (r.pt_idx = k) := by
              rw [htag e r hF]
              exact hek
            rw [if_neg (by simpa using hne)]
            exact filterMap_tag_single F htag k p es hnd' hmem'

/-- Every `closest` entry is the head and size of the per-point group of the
sorted candidate frame. -/
theorem snapClosest_src (sorted : List SnapCand)
    (x : SnapCand × Nat) (hx : x ∈ snapClosestOf sorted) :
    ∃ cs, (sorted.filter
        fun c => c.pt_idx = x.1.pt_idx) = x.1 :: cs ∧ x.2 = cs.length + 1 := by
  unfold snapClosestOf at hx
  rcases List.mem_filterMap.mp hx with ⟨kk, _, hmatch⟩
  cases hfk : sorted.filter
      fun c => c.pt_idx = kk with
  | nil =>
      rw [hfk] at hmatch
      exact absurd hmatch (by exact Option.noConfusion)
  | cons c cs =>
      rw [hfk] at hmatch
      have hx2 : (c, cs.length + 1) = x := Option.some.inj hmatch
      have hcm : c ∈ sorted.filter
          fun c => c.pt_idx = kk := by
        rw [hfk]
        exact List.mem_cons_self c cs
      have hck : c.pt_idx = kk :=
        of_decide_eq_true (List.mem_filter.mp hcm).2
      refine ⟨cs, ?_, ?_⟩
      · rw [← hx2]
        rw [show (c, cs.length + 1).1 = c from rfl, hck]
        exact hfk
      · rw [← hx2]

/-- If the sorted per-point group of `k` is nonempty, the lookup into
`closest` finds exactly its head and size. -/
theorem snapClosest_find (sorted : List SnapCand)
    (k : Nat) (c : SnapCand) (cs : List SnapCand)
    (hf : sorted.filter (fun x => x.pt_idx = k) =
      c :: cs) :
    (snapClosestOf sorted).find? (fun pr => pr.1.pt_idx = k) =
      some (c, cs.length + 1) := by
  have hcmem : c ∈ sorted.filter
      fun x => x.pt_idx = k := by
    rw [hf]
    exact List.mem_cons_self c cs
  have hck : c.pt_idx = k := of_decide_eq_true (List.mem_filter.mp hcmem).2
  apply find?_eq_some_of_unique
  · unfold snapClosestOf
    apply List.mem_filterMap.mpr
    refine ⟨k, ?_, ?_⟩
    · exact List.mem_dedup.mpr (List.mem_map.mpr
        ⟨c, List.mem_of_mem_filter hcmem, hck⟩)
    · rw [hf]
  · exact decide_eq_true hck
  · intro x hx hpx
    have hxk : x.1.pt_idx = k := of_decide_eq_true hpx
    obtain ⟨cs'', hf'', hlen''⟩ := snapClosest_src sorted x hx
    rw [hxk, hf] at hf''
    have h1 : x.1 = c := (List.head_eq_of_cons_eq hf'').symm
    have h2 : cs'' = cs := (List.tail_eq_of_cons_eq hf'').symm
    have h3 : x.2 = cs.length + 1 := by rw [hlen'', h2]
    cases x with
    | mk x1 x2 =>
        rw [show (x1, x2).1 = x1 from rfl] at h1
        rw [show (x1, x2).2 = x2 from rfl] at h3
        rw [h1, h3]

theorem candLt_negtrans (a b c : SnapCand) :
    candLt b a = false → candLt c b = false → candLt c a = false := by
  unfold candLt
  simp only [decide_eq_false_iff_not]
  intro h1 h2
  push_neg at h1 h2 ⊢
  obtain ⟨h1a, h1b⟩ := h1
  obtain ⟨h2a, h2b⟩ := h2
  refine ⟨by omega, ?_⟩
  intro hce
  have hba : b.pt_idx = a.pt_idx := by omega
  have hcb : c.pt_idx = b.pt_idx := by omega
  have q1 := h1b hba
  have q2 := h2b hcb
  linarith

/-- C4 (amended): for any sorted candidate frame satisfying the contract of
`sort_values` (a sorted permutation of `tmp` - all that pandas' default
unstable quicksort guarantees), a point with at least one
(well-formed, two-or-more-vertex) flowline within tolerance gets exactly
one output row, carrying the identifiers of a flowline at minimum distance,
minimum over all flowlines; a point with no flowline within tolerance gets
no row.  The tie-break to the lowest ordinal holds only under the
additional hypothesis that the frame is the stable sort of the index hits
in ascending ordinal order (`snapSorted`), which the library does not
guarantee: see the counterexample. -/
theorem C4_snap_nearest (points : List Pt) (lines : List SnapLine) (tol : ℚ)
    (hgeom : ∀ l ∈ lines, 2 ≤ l.geometry.length)
    (sorted : List SnapCand)
    (hvs : validCandSort (snapTmp points lines tol) sorted)
    (k : Nat) (hk : k < points.length) :
    ((∃ l ∈ lines, distToLine l.geometry points[k] ≤ tol) →
      ∃ row : SnapRow, (snapOutputOf points sorted).filter
          (fun r => r.pt_idx = k) = [row] ∧
        ∃ (i : Nat) (l : SnapLine), lines[i]? = some l ∧
          row.lineID = l.lineID ∧ row.NHDPlusID = l.NHDPlusID ∧
          row.snap_dist = distToLine l.geometry points[k] ∧
          (∀ l' ∈ lines, row.snap_dist ≤ distToLine l'.geometry points[k]) ∧
          (sorted = snapSorted points lines tol →
            ∀ j l', lines[j]? = some l' →
              distToLine l'.geometry points[k] = row.snap_dist → i ≤ j)) ∧
    ((∀ l ∈ lines, ¬ distToLine l.geometry points[k] ≤ tol) →
      (snapOutputOf points sorted).filter (fun r => r.pt_idx = k) = []) := by
  obtain ⟨hperm, hsorted⟩ := hvs
  have hkp : points[k]? = some points[k] := List.getElem?_eq_getElem hk
  have hmemk : (k, points[k]) ∈ points.enum :=
    List.mem_enum_iff_getElem?.mpr hkp
  have hnd : (points.enum.map Prod.fst).Nodup := by
    rw [List.enum_map_fst]
    exact List.nodup_range _
  have htag : ∀ e r, snapFOf sorted e = some r → r.pt_idx = e.1 := by
    intro e r h
    unfold snapFOf at h
    rcases Option.map_eq_some'.mp h with ⟨pr, _, hpr⟩
    rw [← hpr]
  have hout : (snapOutputOf points sorted).filter
      (fun r => r.pt_idx = k) =
      (snapFOf sorted (k, points[k])).toList :=
    filterMap_tag_single (snapFOf sorted) htag k points[k]
      points.enum hnd hmemk
  constructor
  · rintro ⟨l0, hl0, hd0⟩
    obtain ⟨j0, hj0len, hj0⟩ := List.getElem_of_mem hl0
    have hj0q : lines[j0]? = some l0 := by
      rw [List.getElem?_eq_getElem hj0len, hj0]
    have hc0 : mkCandOf k j0 l0 points[k] ∈ snapTmp points lines tol :=
      cand_mem_tmp points lines tol k j0 points[k] l0 hkp hj0q
        (hgeom l0 hl0) hd0
    have hc0s : mkCandOf k j0 l0 points[k] ∈ sorted :=
      hperm.mem_iff.mpr hc0
    obtain ⟨c, cs, hfcs⟩ : ∃ c cs, sorted.filter
        (fun x => x.pt_idx = k) = c :: cs := by
      cases hfk : sorted.filter
          fun x => x.pt_idx = k with
      | nil =>
          exfalso
          have hm : mkCandOf k j0 l0 points[k] ∈
              sorted.filter
                fun x => x.pt_idx = k :=
            List.mem_filter.mpr ⟨hc0s, decide_eq_true rfl⟩
          rw [hfk] at hm
          exact absurd hm (List.not_mem_nil _)
      | cons c cs => exact ⟨c, cs, rfl⟩
    have hfind := snapClosest_find sorted k c cs hfcs
    have hF : snapFOf sorted (k, points[k]) = some
        { pt_idx := k, lineID := c.lineID, NHDPlusID := c.NHDPlusID,
          snap_dist := c.snap_dist, nearby := cs.length + 1,
          geometry :=
            interpolate c.geometry (project c.geometry c.point) } := by
      unfold snapFOf
      rw [hfind]
      rfl
    refine ⟨_, by rw [hout, hF]; rfl, ?_⟩
    have hcmemfil : c ∈ sorted.filter
        fun x => x.pt_idx = k := by
      rw [hfcs]
      exact List.mem_cons_self c cs
    have hcs : c ∈ sorted :=
      List.mem_of_mem_filter hcmemfil
    have hck : c.pt_idx = k :=
      of_decide_eq_true (List.mem_filter.mp hcmemfil).2
    have hctmp : c ∈ snapTmp points lines tol := hperm.mem_iff.mp hcs
    have hcdist : c.snap_dist ≤ tol :=
      of_decide_eq_true (List.mem_filter.mp hctmp).2
    have hcc : c ∈ snapCandidates points lines tol :=
      List.mem_of_mem_filter hctmp
    obtain ⟨lc, hlcq, hptc, hcform⟩ :=
      snapCandidates_src points lines tol c hcc
    have hcpt : c.point = points[k] := by
      rw [hck, hkp] at hptc
      exact (Option.some.inj hptc).symm
    refine ⟨c.line_i, lc, hlcq, ?_, ?_, ?_, ?_, ?_⟩
    · show c.lineID = lc.lineID
      rw [hcform]
      rfl
    · show c.NHDPlusID = lc.NHDPlusID
      rw [hcform]
      rfl
    · show c.snap_dist = distToLine lc.geometry points[k]
      rw [← hcpt, hcform]
      rfl
    · intro l' hl'
      show c.snap_dist ≤ distToLine l'.geometry points[k]
      by_cases hcase : distToLine l'.geometry points[k] ≤ tol
      · obtain ⟨j', hj'len, hj'⟩ := List.getElem_of_mem hl'
        have hj'q : lines[j']? = some l' := by
          rw [List.getElem?_eq_getElem hj'len, hj']
        have hc' : mkCandOf k j' l' points[k] ∈ snapTmp points lines tol :=
          cand_mem_tmp points lines tol k j' points[k] l' hkp hj'q
            (hgeom l' hl') hcase
        have hc'f : mkCandOf k j' l' points[k] ∈
            sorted.filter fun x => x.pt_idx = k :=
          List.mem_filter.mpr ⟨hperm.mem_iff.mpr hc', decide_eq_true rfl⟩
        rw [hfcs] at hc'f
        rcases List.mem_cons.mp hc'f with heq | htail
        · rw [← heq]
          exact le_refl _
        · have hpw : (sorted.filter
              fun x => x.pt_idx = k).Pairwise
                (fun a b => candLt b a = false) :=
            hsorted.filter _
          rw [hfcs] at hpw
          have hcb := (List.pairwise_cons.mp hpw).1 _ htail
          unfold candLt at hcb
          rw [decide_eq_false_iff_not] at hcb
          push_neg at hcb
          have hpt : (mkCandOf k j' l' points[k]).pt_idx = c.pt_idx := hck.symm
          exact hcb.2 hpt
      · exact le_trans hcdist (le_of_not_le hcase)
    · intro hstab j' l' hj'q htie
      subst hstab
      show c.line_i ≤ j'
      have hl'mem : l' ∈ lines := List.getElem?_mem hj'q
      have hd' : distToLine l'.geometry points[k] ≤ tol := by
        rw [htie]
        exact hcdist
      have hc' : mkCandOf k j' l' points[k] ∈ snapTmp points lines tol :=
        cand_mem_tmp points lines tol k j' points[k] l' hkp hj'q
          (hgeom l' hl'mem) hd'
      have hmut : ∀ a b : SnapCand,
          (decide (a.snap_dist = c.snap_dist) &&
            decide (a.pt_idx = k)) = true →
          (decide (b.snap_dist = c.snap_dist) &&
            decide (b.pt_idx = k)) = true → candLt a b = false := by
        intro a b ha hb
        rcases Bool.and_eq_true_iff.mp ha with ⟨ha1, ha2⟩
        rcases Bool.and_eq_true_iff.mp hb with ⟨hb1, hb2⟩
        have ha1' := of_decide_eq_true ha1
        have ha2' := of_decide_eq_true ha2
        have hb1' := of_decide_eq_true hb1
        have hb2' := of_decide_eq_true hb2
        unfold candLt
        rw [decide_eq_false_iff_not]
        push_neg
        refine ⟨by omega, ?_⟩
        intro _
        rw [ha1', hb1']
      have hstab := sortBy_filter_stable candLt
        (fun x => decide (x.snap_dist = c.snap_dist) &&
          decide (x.pt_idx = k)) hmut (snapTmp points lines tol)
      have hLF : (snapSorted points lines tol).filter
          (fun x => decide (x.snap_dist = c.snap_dist) &&
            decide (x.pt_idx = k)) =
          c :: cs.filter (fun x => x.snap_dist = c.snap_dist) := by
        rw [show (snapSorted points lines tol).filter
            (fun x => decide (x.snap_dist = c.snap_dist) &&
              decide (x.pt_idx = k)) =
            ((snapSorted points lines tol).filter
              (fun x => x.pt_idx = k)).filter
                (fun x => x.snap_dist = c.snap_dist) from
          (List.filter_filter _ _).symm]
        rw [hfcs, List.filter_cons,
          if_pos (show (decide (c.snap_dist = c.snap_dist)) = true from
            decide_eq_true rfl)]
      have hTF : (snapTmp points lines tol).filter
          (fun x => decide (x.snap_dist = c.snap_dist) &&
            decide (x.pt_idx = k)) =
          c :: cs.filter (fun x => x.snap_dist = c.snap_dist) := by
        rw [← hstab]
        exact hLF
      have hc'p : (decide ((mkCandOf k j' l' points[k]).snap_dist =
          c.snap_dist) && decide ((mkCandOf k j' l' points[k]).pt_idx = k))
          = true := by
        rw [Bool.and_eq_true_iff]
        exact ⟨decide_eq_true htie, decide_eq_true rfl⟩
      have hc'mem : mkCandOf k j' l' points[k] ∈
          c :: cs.filter (fun x => x.snap_dist = c.snap_dist) := by
        rw [← hTF]
        exact List.mem_filter.mpr ⟨hc', hc'p⟩
      rcases List.mem_cons.mp hc'mem with heq | htail
      · have : c.line_i = j' := by
          rw [← heq]
          rfl
        omega
      · have hpwt : ((snapTmp points lines tol).filter
            (fun x => decide (x.snap_dist = c.snap_dist) &&
              decide (x.pt_idx = k))).Pairwise
            (fun a b => a.pt_idx = b.pt_idx → a.line_i < b.line_i) :=
          ((snapCandidates_pairwise points lines tol).filter _).filter _
        rw [hTF] at hpwt
        have hlt := (List.pairwise_cons.mp hpwt).1 _ htail
        have hptEq : c.pt_idx = (mkCandOf k j' l' points[k]).pt_idx := hck
        have := hlt hptEq
        exact le_of_lt this
  · intro hnone
    rw [hout]
    have hfindnone : (snapClosestOf sorted).find?
        (fun pr => pr.1.pt_idx = k) = none := by
      apply List.find?_eq_none.mpr
      intro x hx hpx
      have hxk : x.1.pt_idx = k := of_decide_eq_true hpx
      obtain ⟨cs'', hf'', _⟩ := snapClosest_src sorted x hx
      have hx1 : x.1 ∈ sorted.filter
          fun c => c.pt_idx = x.1.pt_idx := by
        rw [hf'']
        exact List.mem_cons_self _ _
      have hx1t : x.1 ∈ snapTmp points lines tol :=
        hperm.mem_iff.mp (List.mem_of_mem_filter hx1)
      have hxd : x.1.snap_dist ≤ tol :=
        of_decide_eq_true (List.mem_filter.mp hx1t).2
      obtain ⟨lx, hlxq, hptx, hxform⟩ := snapCandidates_src points lines tol
        x.1 (List.mem_of_mem_filter hx1t)
      have hlxmem : lx ∈ lines := List.getElem?_mem hlxq
      rw [hxk, hkp] at hptx
      have hxpt : x.1.point = points[k] := (Option.some.inj hptx).symm
      apply hnone lx hlxmem
      rw [← hxpt]
      rw [hxform] at hxd
      exact hxd
    have hFn : snapFOf sorted (k, points[k]) = none := by
      unfold snapFOf
      rw [hfindnone]
      rfl
    rw [hFn]
    rfl

/-- Two flowlines both at distance 0 from the point 40: a tie. -/
def exSnapLines : List SnapLine :=
  [{ lineID := 7, NHDPlusID := 70, geometry := [0, 100] },
   { lineID := 8, NHDPlusID := 80, geometry := [30, 50] }]

theorem C4_witness :
    ∃ row : SnapRow, (snap_to_line [(40 : ℚ)] exSnapLines 5).filter
        (fun r => r.pt_idx = 0) = [row] ∧
      ∃ (i : Nat) (l : SnapLine), exSnapLines[i]? = some l ∧
        row.lineID = l.lineID ∧ row.NHDPlusID = l.NHDPlusID ∧
        row.snap_dist = distToLine l.geometry 40 ∧
        (∀ l' ∈ exSnapLines, row.snap_dist ≤ distToLine l'.geometry 40) ∧
        (∀ j l', exSnapLines[j]? = some l' →
          distToLine l'.geometry 40 = row.snap_dist → i ≤ j) := by
  obtain ⟨row, hrow, i, l, hil, h1, h2, h3, h4, h5⟩ :=
    (C4_snap_nearest [(40 : ℚ)] exSnapLines 5 (by decide)
      (snapSorted [(40 : ℚ)] exSnapLines 5)
      ⟨sortBy_perm _ _,
        sortBy_pairwiseR candLt candLt_asymm candLt_negtrans _⟩
      0 (by decide)).1
      ⟨{ lineID := 7, NHDPlusID := 70, geometry := [0, 100] },
        by decide,
        by norm_num [distToLine, projCandidates, firstMinFst, clampQ]⟩
  exact ⟨row, hrow, i, l, hil, h1, h2, h3, h4, h5 rfl⟩

/-- The candidate row of point 40 against line 7 (ordinal 0). -/
def exCand7 : SnapCand :=
  { pt_idx := 0, line_i := 0, lineID := 7, NHDPlusID := 70,
    geometry := [0, 100], point := 40, snap_dist := 0 }

/-- The candidate row of point 40 against line 8 (ordinal 1). -/
def exCand8 : SnapCand :=
  { pt_idx := 0, line_i := 1, lineID := 8, NHDPlusID := 80,
    geometry := [30, 50], point := 40, snap_dist := 0 }

/-- C4 (counterexample to the tie clause of the original claim): with two
flowlines both at distance exactly 0 from the point, both orders of the
candidate frame satisfy everything
`tmp.sort_values(by=["pt_idx", "snap_dist"])` guarantees for an arbitrary
sort kind (a permutation sorted by the key - pandas' default quicksort is
not stable), yet the remainder of `snap_to_line` picks line 7 under one
order and line 8 under the other.  So the program does not break ties to
the lowest ordinal position; that tie-break holds only in the determinised
model (ascending-ordinal index hits plus a stable sort). -/
theorem C4_counterexample :
    distToLine ([0, 100] : Line) 40 = 0 ∧
    distToLine ([30, 50] : Line) 40 = 0 ∧
    validCandSort (snapTmp [(40 : ℚ)] exSnapLines 5) [exCand7, exCand8] ∧
    validCandSort (snapTmp [(40 : ℚ)] exSnapLines 5) [exCand8, exCand7] ∧
    (snapOutputOf [(40 : ℚ)] [exCand7, exCand8]).map SnapRow.lineID = [7] ∧
    (snapOutputOf [(40 : ℚ)] [exCand8, exCand7]).map SnapRow.lineID = [8] := by
  have htmp : snapTmp [(40 : ℚ)] exSnapLines 5 = [exCand7, exCand8] := by
    norm_num [snapTmp, snapCandidates, sindexHits, lineBounds, distToLine,
      projCandidates, firstMinFst, clampQ, exSnapLines, exCand7, exCand8,
      List.enum, List.enumFrom, Function.comp]
  have hlt78 : candLt exCand7 exCand8 = false := by
    norm_num [candLt, exCand7, exCand8]
  have hlt87 : candLt exCand8 exCand7 = false := by
    norm_num [candLt, exCand7, exCand8]
  refine ⟨?_, ?_, ⟨?_, ?_⟩, ⟨?_, ?_⟩, ?_, ?_⟩
  · norm_num [distToLine, projCandidates, firstMinFst, clampQ]
  · norm_num [distToLine, projCandidates, firstMinFst, clampQ]
  · rw [htmp]
  · refine List.pairwise_cons.mpr ⟨?_, List.pairwise_singleton _ _⟩
    intro z hz
    rw [List.mem_singleton.mp hz]
    exact hlt87
  · rw [htmp]
    exact List.Perm.swap exCand7 exCand8 []
  · refine List.pairwise_cons.mpr ⟨?_, List.pairwise_singleton _ _⟩
    intro z hz
    rw [List.mem_singleton.mp hz]
    exact hlt78
  · have hF1 : snapFOf [exCand7, exCand8] (0, (40 : ℚ)) =
        some { pt_idx := 0, lineID := 7, NHDPlusID := 70, snap_dist := 0,
               nearby := 2, geometry := 40 } := by
      norm_num [snapFOf, snapClosestOf, exCand7, exCand8, interpolate,
        project, projCandidates, firstMinFst, clampQ]
    show (List.filterMap (snapFOf [exCand7, exCand8])
        [(0, (40 : ℚ))]).map SnapRow.lineID = [7]
    rw [List.filterMap_cons, hF1]
    rfl
  · have hF2 : snapFOf [exCand8, exCand7] (0, (40 : ℚ)) =
        some { pt_idx := 0, lineID := 8, NHDPlusID := 80, snap_dist := 0,
               nearby := 2, geometry := 40 } := by
      norm_num [snapFOf, snapClosestOf, exCand7, exCand8, interpolate,
        project, projCandidates, firstMinFst, clampQ]
    show (List.filterMap (snapFOf [exCand8, exCand7])
        [(0, (40 : ℚ))]).map SnapRow.lineID = [8]
    rw [List.filterMap_cons, hF2]
    rfl

end NhdNet
